import Mathlib

/-!
Verification of the aoalgo trading executor against its specification.

The Python source is shallowly embedded: prices and quantities are modelled
as rationals (`ℚ`), Python floats' decimal formatting steps are modelled as
exact decimal roundings, optional dictionary entries become `Option`, and
venue I/O is modelled by passing the venue's responses as explicit data while
recording the outgoing calls in a trace.
-/

namespace AoAlgo

/-- Order side as the engine uses it ("Buy"/"Sell"). -/
inductive Side where
  | Buy
  | Sell
deriving DecidableEq, Repr

/-- `_opposite_side` from trade_engine.py. -/
def opposite_side : Side → Side
  | .Buy => .Sell
  | .Sell => .Buy

/-- Round-half-to-even on rationals: the rounding used by Python's built-in
`round` and by fixed-precision float formatting. -/
def halfEvenZ (q : ℚ) : ℤ :=
  let f : ℤ := ⌊q⌋
  let r : ℚ := q - (f : ℚ)
  if r < 1/2 then f
  else if 1/2 < r then f + 1
  else if Even f then f else f + 1

/-- Round a rational to `n` decimal places, half to even (models Python's
`round(x, n)` and `f-string` fixed-point formatting on the exact value). -/
def roundDec (q : ℚ) (n : ℕ) : ℚ :=
  (halfEvenZ (q * 10 ^ n) : ℚ) / 10 ^ n

/-- `TradeEngine._floor_to_step`: floor `x` to a multiple of `step`
(`step ≤ 0` returns `x` unchanged). -/
def floor_to_step (x step : ℚ) : ℚ :=
  if step ≤ 0 then x else (⌊x / step⌋ : ℚ) * step

/-- `TradeEngine._round_price`: `round(round(price / tick_size) * tick_size, 10)`,
with `tick_size ≤ 0` returning the price unchanged. -/
def round_price (price tick_size : ℚ) : ℚ :=
  if tick_size ≤ 0 then price
  else roundDec ((halfEvenZ (price / tick_size) : ℚ) * tick_size) 10

/-- `TradeEngine._round_qty`: floor to the lot step, clamp up to the minimum
quantity, then the final `float(f"{qty:.10f}")` 10-decimal formatting. -/
def round_qty (qty qty_step min_qty : ℚ) : ℚ :=
  let q := floor_to_step qty qty_step
  let q := if q < min_qty then min_qty else q
  roundDec q 10

/-- Instrument rules as returned by `_get_instrument_rules`. -/
structure Rules where
  qty_step : ℚ
  min_qty : ℚ
  tick_size : ℚ
deriving DecidableEq, Repr

/-- `TradeEngine.calc_base_qty`: margin = equity·risk%, notional = margin·leverage,
qty = notional/price, then lot rounding. The wallet equity fetched at sizing
time is the `equity` argument. -/
def calc_base_qty (equity risk_pct leverage entry_price : ℚ) (rules : Rules) : ℚ :=
  let margin := equity * (risk_pct / 100)
  let notional := margin * leverage
  let qty := notional / entry_price
  round_qty qty rules.qty_step rules.min_qty

/-- A rational exactly representable with 10 decimal places (the precision of
the engine's final quantity formatting). -/
def IsDec10 (q : ℚ) : Prop := ∃ n : ℤ, q = (n : ℚ) / 10 ^ 10

theorem halfEvenZ_intCast (n : ℤ) : halfEvenZ (n : ℚ) = n := by
  simp [halfEvenZ]

theorem roundDec_eq_self (q : ℚ) (h : IsDec10 q) : roundDec q 10 = q := by
  obtain ⟨n, rfl⟩ := h
  have h10 : ((10 : ℚ) ^ 10) ≠ 0 := by norm_num
  have : (n : ℚ) / 10 ^ 10 * 10 ^ 10 = (n : ℚ) := by field_simp
  rw [roundDec, this, halfEvenZ_intCast]

theorem IsDec10.int_mul (k : ℤ) {q : ℚ} (h : IsDec10 q) : IsDec10 ((k : ℚ) * q) := by
  obtain ⟨n, rfl⟩ := h
  exact ⟨k * n, by push_cast; ring⟩

/-- C5: for every new intent, the computed base quantity equals
`floor_to_step((equity · risk_pct/100 · leverage) / trigger_price, qty_step)`,
clamped up to `min_qty` when the floored quantity is below `min_qty`
(for venue lot rules expressible in 10 decimals, the precision of the
engine's final quantity formatting). -/
theorem calc_base_qty_spec (equity risk_pct leverage price : ℚ) (r : Rules)
    (hstep : 0 < r.qty_step) (h1 : IsDec10 r.qty_step) (h2 : IsDec10 r.min_qty) :
    calc_base_qty equity risk_pct leverage price r =
      (let f := floor_to_step (equity * (risk_pct / 100) * leverage / price) r.qty_step
       if f < r.min_qty then r.min_qty else f) := by
  have hfloor : IsDec10 (floor_to_step (equity * (risk_pct / 100) * leverage / price)
      r.qty_step) := by
    rw [floor_to_step, if_neg (not_le.mpr hstep)]
    exact h1.int_mul _
  rw [calc_base_qty, round_qty]
  by_cases hlt : floor_to_step (equity * (risk_pct / 100) * leverage / price) r.qty_step
      < r.min_qty
  · simp only [hlt, if_pos]
    exact roundDec_eq_self _ h2
  · simp only [hlt, if_neg, if_false]
    exact roundDec_eq_self _ hfloor

/-- Witness for C5 at concrete values: equity 1000, risk 5 %, leverage 5,
trigger 100, qty_step 1/10, min_qty 1/100. -/
theorem calc_base_qty_spec_witness :
    calc_base_qty 1000 5 5 100 ⟨1/10, 1/100, 1/100⟩ = 5/2 := by
  have h := calc_base_qty_spec 1000 5 5 100 ⟨1/10, 1/100, 1/100⟩
    (by norm_num) ⟨10 ^ 9, by norm_num⟩ ⟨10 ^ 8, by norm_num⟩
  rw [h]
  norm_num [floor_to_step]

/-- Engine configuration (the values normally read from the environment by
config.py); `DRY_RUN` is false throughout: the claims are about live order
flow. -/
structure Config where
  LEVERAGE : ℚ
  RISK_PCT : ℚ
  ENTRY_TOO_FAR_PCT : ℚ
  ENTRY_EXPIRATION_PRICE_PCT : ℚ
  ENTRY_TRIGGER_BUFFER_PCT : ℚ
  ENTRY_LIMIT_PRICE_OFFSET_PCT : ℚ
  ENTRY_EXPIRATION_MIN : ℚ
  INITIAL_SL_PCT : ℚ
  TP_SPLITS : List ℚ
  FALLBACK_TP_PCT : List ℚ
  DCA_QTY_MULTS : List ℚ
  MOVE_SL_TO_BE_ON_TP1 : Bool
  TRAIL_AFTER_TP_INDEX : ℕ
  TRAIL_DISTANCE_PCT : ℚ
  TRAIL_ACTIVATE_ON_TP : Bool
deriving DecidableEq, Repr

/-- Body of a `place_order` venue call; numeric fields carry the exact values
the code formats into the request strings. -/
structure OrderBody where
  symbol : String
  side : Side
  orderType : String
  qty : ℚ
  price : ℚ
  timeInForce : String
  triggerDirection : Option ℕ
  triggerPrice : Option ℚ
  reduceOnly : Bool
  closeOnTrigger : Bool
  orderLinkId : String
deriving DecidableEq, Repr

/-- Body of a `set_trading_stop` venue call. -/
structure StopBody where
  symbol : String
  stopLoss : Option ℚ
  trailingStop : Option ℚ
  activePrice : Option ℚ
  tpslMode : String
deriving DecidableEq, Repr

/-- An outgoing venue interaction recorded by the embedding. -/
inductive Call where
  | setLeverage (symbol : String) (lev : ℚ)
  | placeOrder (body : OrderBody)
  | setTradingStop (body : StopBody)
  | cancelOrder (symbol : String) (orderId : String)
  | sleep (seconds : ℚ)
deriving DecidableEq, Repr

/-- The venue's responses during one engine operation, passed in as data:
quote, instrument rules, equity, the symbol's position, and the order id
(if any) each `place_order` response carries. -/
structure Venue where
  last_price : ℚ
  rules : Rules
  wallet_equity : ℚ
  position_size : ℚ
  position_avg : ℚ
  place_order_resp : OrderBody → Option String
  set_stop_ok : ℕ → Bool

/-- `TradeEngine._too_far`: skip a short when the price is already
`ENTRY_TOO_FAR_PCT` % under the trigger, mirrored for a long. -/
def too_far (side : Side) (last trigger entry_too_far_pct : ℚ) : Bool :=
  match side with
  | .Sell => decide (last ≤ trigger * (1 - entry_too_far_pct / 100))
  | .Buy => decide (last ≥ trigger * (1 + entry_too_far_pct / 100))

/-- `TradeEngine._beyond_expiry_price`: tighter skip once the market has
blown through the trigger by `ENTRY_EXPIRATION_PRICE_PCT` %. -/
def beyond_expiry_price (side : Side) (last trigger pct : ℚ) : Bool :=
  if pct ≤ 0 then false
  else match side with
    | .Sell => decide (last ≤ trigger * (1 - pct / 100))
    | .Buy => decide (last ≥ trigger * (1 + pct / 100))

/-- `TradeEngine._trigger_direction`: Bybit's 1 = rises to trigger,
2 = falls to trigger. -/
def trigger_direction (last trigger : ℚ) : ℕ :=
  if last < trigger then 1 else if last > trigger then 2 else 1

/-- A parsed signal as handed to `place_conditional_entry`
(`sig["symbol"]`, `sig["side"]`, `sig["trigger"]`). -/
structure Sig where
  symbol : String
  side : String
  trigger : ℚ
deriving DecidableEq, Repr

/-- `TradeEngine.place_conditional_entry` with `DRY_RUN = false`: best-effort
leverage, the too-far and beyond-expiry gates against `last_price` and the
unadjusted trigger, then the conditional LIMIT entry.  Returns the order id
from the venue's response and the trace of calls made. -/
def place_conditional_entry (cfg : Config) (v : Venue) (sig : Sig)
    (trade_id : String) : Option String × List Call :=
  let side : Side := if sig.side = "sell" then .Sell else .Buy
  let trigger := sig.trigger
  let lev : List Call := [.setLeverage sig.symbol cfg.LEVERAGE]
  let last := v.last_price
  if too_far side last trigger cfg.ENTRY_TOO_FAR_PCT then (none, lev)
  else if beyond_expiry_price side last trigger cfg.ENTRY_EXPIRATION_PRICE_PCT then
    (none, lev)
  else
    let tick := v.rules.tick_size
    let trigger_adj :=
      if side = .Buy then trigger * (1 - cfg.ENTRY_TRIGGER_BUFFER_PCT / 100)
      else trigger * (1 + cfg.ENTRY_TRIGGER_BUFFER_PCT / 100)
    let trigger_adj := round_price trigger_adj tick
    let limit_price :=
      if cfg.ENTRY_LIMIT_PRICE_OFFSET_PCT ≠ 0 then
        let off := |cfg.ENTRY_LIMIT_PRICE_OFFSET_PCT| / 100
        if side = .Sell then trigger * (1 + off) else trigger * (1 - off)
      else trigger
    let limit_price := round_price limit_price tick
    let qty := calc_base_qty v.wallet_equity cfg.RISK_PCT cfg.LEVERAGE trigger v.rules
    let td := trigger_direction last trigger_adj
    let body : OrderBody :=
      { symbol := sig.symbol, side := side, orderType := "Limit", qty := qty,
        price := limit_price, timeInForce := "GTC", triggerDirection := some td,
        triggerPrice := some trigger_adj, reduceOnly := false,
        closeOnTrigger := false, orderLinkId := trade_id }
    (v.place_order_resp body, lev ++ [.placeOrder body])

/-- C6: the too-far gate, evaluated against `last_price` and the unadjusted
trigger, rejects a sell exactly when `last ≤ trigger·(1 − pct/100)` and a buy
exactly when `last ≥ trigger·(1 + pct/100)`; when it rejects,
`place_conditional_entry` places no order and returns no order id. -/
theorem too_far_gate (cfg : Config) (v : Venue) (sig : Sig) (trade_id : String) :
    (∀ last trigger pct,
      (too_far .Sell last trigger pct = true ↔ last ≤ trigger * (1 - pct / 100)) ∧
      (too_far .Buy last trigger pct = true ↔ last ≥ trigger * (1 + pct / 100))) ∧
    (too_far (if sig.side = "sell" then .Sell else .Buy) v.last_price sig.trigger
        cfg.ENTRY_TOO_FAR_PCT = true →
      (place_conditional_entry cfg v sig trade_id).1 = none ∧
      ∀ c ∈ (place_conditional_entry cfg v sig trade_id).2,
        ∀ b, c ≠ Call.placeOrder b) := by
  refine ⟨fun last trigger pct => ⟨by simp [too_far], by simp [too_far]⟩, fun h => ?_⟩
  constructor
  · simp [place_conditional_entry, h]
  · intro c hc b
    simp [place_conditional_entry, h] at hc
    simp [hc]

/-- Witness for C6: a short with trigger 100, too-far 0.5 %, last price 99
(at or below 99.5) is rejected and no order is placed. -/
theorem too_far_gate_witness :
    (too_far .Sell 99 100 (1/2) = true ↔ (99 : ℚ) ≤ 100 * (1 - (1/2) / 100)) ∧
    (place_conditional_entry
        ⟨5, 5, 1/2, 3/5, 0, 0, 180, 19, [30, 30, 30], [], [], true, 3, 2, true⟩
        ⟨99, ⟨1/10, 1/100, 1/10000⟩, 1000, 0, 0, fun _ => some "oid", fun _ => true⟩
        ⟨"ABCUSDT", "sell", 100⟩ "tid").1 = none := by
  constructor
  · exact (too_far_gate
      ⟨5, 5, 1/2, 3/5, 0, 0, 180, 19, [30, 30, 30], [], [], true, 3, 2, true⟩
      ⟨99, ⟨1/10, 1/100, 1/10000⟩, 1000, 0, 0, fun _ => some "oid", fun _ => true⟩
      ⟨"ABCUSDT", "sell", 100⟩ "tid").1 99 100 (1/2) |>.1
  · exact ((too_far_gate
      ⟨5, 5, 1/2, 3/5, 0, 0, 180, 19, [30, 30, 30], [], [], true, 3, 2, true⟩
      ⟨99, ⟨1/10, 1/100, 1/10000⟩, 1000, 0, 0, fun _ => some "oid", fun _ => true⟩
      ⟨"ABCUSDT", "sell", 100⟩ "tid").2 (by norm_num [too_far])).1

/-- Trade lifecycle status strings used by the engine. -/
inductive Status where
  | pending
  | open
  | cancelled
  | expired
  | closed
deriving DecidableEq, Repr

/-- A per-trade record (`state["open_trades"][trade_id]`), with the optional
dictionary entries as `Option`.  `tp_fills_list`/`dca_fills_list` are the
fill-dedup lists; the code keeps the companion `tp_fills`/`dca_fills` counters
equal to their lengths at every write site, so the counters are embedded as
the lengths. -/
structure Trade where
  id : String
  symbol : String
  order_side : Side
  trigger : ℚ
  entry_price : Option ℚ
  base_qty : ℚ
  tp_prices : List ℚ
  tp_splits : Option (List ℚ)
  dca_prices : List ℚ
  sl_price : Option ℚ
  status : Status
  placed_ts : Option ℚ
  filled_ts : Option ℚ
  closed_ts : Option ℚ
  entry_order_id : Option String
  tp_order_ids : List (ℕ × Option String)
  tp1_order_id : Option String
  tp_fills_list : List ℕ
  dca_fills_list : List ℕ
  sl_moved_to_be : Bool
  trailing_started : Bool
  post_orders_placed : Bool
  realized_pnl : Option ℚ
  is_win : Option Bool
  exit_reason : Option String
deriving DecidableEq, Repr

/-- `TradeEngine._generate_fallback_tps`: TP prices at configured % distances
from the entry. -/
def generate_fallback_tps (cfg : Config) (entry : ℚ) (side : Side) (tick : ℚ) :
    List ℚ :=
  cfg.FALLBACK_TP_PCT.map fun pct =>
    round_price (if side = .Sell then entry * (1 - pct / 100)
                 else entry * (1 + pct / 100)) tick

/-- Update-or-append into the `tp_order_ids` mapping (Python dict assignment). -/
def setAssoc (m : List (ℕ × Option String)) (k : ℕ) (v : Option String) :
    List (ℕ × Option String) :=
  match m with
  | [] => [(k, v)]
  | (k', v') :: tl => if k' = k then (k, v) :: tl else (k', v') :: setAssoc tl k v

/-- The TP ladder bodies built by `place_post_entry_orders`: for each index
below `min(len(tp_prices), len(splits))` with split > 0, a reduce-only LIMIT
on the opposite side with qty `round_qty(size·split/100)`. -/
def tp_order_list (trade : Trade) (side : Side) (tick qty_step min_qty size : ℚ)
    (tp_prices splits : List ℚ) : List (ℕ × OrderBody) :=
  (List.range (min tp_prices.length splits.length)).filterMap fun idx =>
    let pct := splits.getD idx 0
    if pct ≤ 0 then none
    else
      let tp := round_price (tp_prices.getD idx 0) tick
      let qty := round_qty (size * (pct / 100)) qty_step min_qty
      some (idx,
        { symbol := trade.symbol, side := opposite_side side, orderType := "Limit",
          qty := qty, price := tp, timeInForce := "GTC", triggerDirection := none,
          triggerPrice := none, reduceOnly := true, closeOnTrigger := false,
          orderLinkId := trade.id ++ ":TP" ++ toString (idx + 1) })

/-- The DCA ladder bodies built by `place_post_entry_orders`: for each
`j = 1 .. min(len(dca_prices), len(DCA_QTY_MULTS))`, a same-side conditional
LIMIT at the DCA price with qty `round_qty(base_qty·mult)`. -/
def dca_order_list (cfg : Config) (trade : Trade) (side : Side)
    (tick qty_step min_qty base_qty last : ℚ) : List OrderBody :=
  (List.range (min trade.dca_prices.length cfg.DCA_QTY_MULTS.length)).map fun j0 =>
    let j := j0 + 1
    let price := round_price (trade.dca_prices.getD j0 0) tick
    let mult := cfg.DCA_QTY_MULTS.getD j0 0
    let qty := round_qty (base_qty * mult) qty_step min_qty
    let td := trigger_direction last price
    { symbol := trade.symbol, side := side, orderType := "Limit", qty := qty,
      price := price, timeInForce := "GTC", triggerDirection := some td,
      triggerPrice := some price, reduceOnly := false, closeOnTrigger := false,
      orderLinkId := trade.id ++ ":DCA" ++ toString j }

/-- Record each TP placement's returned order id on the trade
(`tp_order_ids[str(idx+1)] = oid`, index 0 also as `tp1_order_id`); the code
records every response independently, embedded here in submission order. -/
def record_tp_ids (v : Venue) : List (ℕ × OrderBody) → Trade → Trade
  | [], t => t
  | (idx, body) :: rest, t =>
    let oid := v.place_order_resp body
    let t1 := { t with tp_order_ids := setAssoc t.tp_order_ids (idx + 1) oid }
    let t2 := if idx = 0 then { t1 with tp1_order_id := oid } else t1
    record_tp_ids v rest t2

/-- `TradeEngine.place_post_entry_orders` with `DRY_RUN = false`: reads the
position size first and returns untouched when it is not yet positive;
otherwise composes the initial SL (`set_trading_stop`), the TP ladder and the
DCA ladder, records the TP order ids, and finally sets `post_orders_placed`.
Call sites ensure `entry_price` is present; an absent entry is read as 0. -/
def place_post_entry_orders (cfg : Config) (v : Venue) (trade : Trade) :
    Trade × List Call :=
  let side := trade.order_side
  let entry := trade.entry_price.getD 0
  let base_qty := trade.base_qty
  let rules := v.rules
  let size := v.position_size
  if size ≤ 0 then (trade, [])
  else
    let sl_pct := cfg.INITIAL_SL_PCT / 100
    let sl_price0 := if side = .Sell then entry * (1 + sl_pct) else entry * (1 - sl_pct)
    let sl_price := round_price sl_price0 rules.tick_size
    let splits := match trade.tp_splits with
      | some s => if s.isEmpty then cfg.TP_SPLITS else s
      | none => cfg.TP_SPLITS
    let tp_prices := if trade.tp_prices.isEmpty then
        generate_fallback_tps cfg entry side rules.tick_size
      else trade.tp_prices
    let tps := tp_order_list trade side rules.tick_size rules.qty_step rules.min_qty
      size tp_prices splits
    let dcas := dca_order_list cfg trade side rules.tick_size rules.qty_step
      rules.min_qty base_qty v.last_price
    let ts_body : StopBody :=
      { symbol := trade.symbol, stopLoss := some sl_price, trailingStop := none,
        activePrice := none, tpslMode := "Full" }
    let trade1 := record_tp_ids v tps trade
    let trade2 := { trade1 with post_orders_placed := true }
    (trade2, Call.setTradingStop ts_body ::
      (tps.map (fun o => Call.placeOrder o.2) ++ dcas.map Call.placeOrder))

/-- C10: `post_orders_placed` becomes true only on a call of
`place_post_entry_orders` that observed a venue position with size > 0;
when the reported size is ≤ 0 the function returns early, placing no orders
and leaving the record (hence the flag) untouched. -/
theorem post_orders_flag_requires_position (cfg : Config) (v : Venue) (t : Trade) :
    (v.position_size ≤ 0 → place_post_entry_orders cfg v t = (t, [])) ∧
    (t.post_orders_placed = false →
      (place_post_entry_orders cfg v t).1.post_orders_placed = true →
      0 < v.position_size) := by
  constructor
  · intro h
    rw [place_post_entry_orders]
    simp [h]
  · intro hflag hres
    by_contra hpos
    push_neg at hpos
    rw [place_post_entry_orders] at hres
    simp [hpos] at hres
    rw [hres] at hflag
    exact absurd hflag (by simp)

/-- Witness for C10 at a concrete trade and venue with position size 0. -/
theorem post_orders_flag_requires_position_witness :
    place_post_entry_orders
      ⟨5, 5, 1/2, 3/5, 0, 0, 180, 19, [30, 30, 30], [], [3/2, 9/4], true, 3, 2, true⟩
      ⟨100, ⟨1/10, 1/100, 1/10000⟩, 1000, 0, 0, fun _ => some "oid", fun _ => true⟩
      { id := "T1", symbol := "ABCUSDT", order_side := .Buy, trigger := 100,
        entry_price := some 100, base_qty := 5/2, tp_prices := [101, 102, 104],
        tp_splits := none, dca_prices := [], sl_price := none, status := .open,
        placed_ts := some 0, filled_ts := some 1, closed_ts := none,
        entry_order_id := some "e1", tp_order_ids := [], tp1_order_id := none,
        tp_fills_list := [], dca_fills_list := [], sl_moved_to_be := false,
        trailing_started := false, post_orders_placed := false,
        realized_pnl := none, is_win := none, exit_reason := none } =
    ({ id := "T1", symbol := "ABCUSDT", order_side := .Buy, trigger := 100,
        entry_price := some 100, base_qty := 5/2, tp_prices := [101, 102, 104],
        tp_splits := none, dca_prices := [], sl_price := none, status := .open,
        placed_ts := some 0, filled_ts := some 1, closed_ts := none,
        entry_order_id := some "e1", tp_order_ids := [], tp1_order_id := none,
        tp_fills_list := [], dca_fills_list := [], sl_moved_to_be := false,
        trailing_started := false, post_orders_placed := false,
        realized_pnl := none, is_win := none, exit_reason := none }, []) :=
  (post_orders_flag_requires_position _ _ _).1 (by norm_num)

/-- Python truthiness-aware default: `float(x or d)` for an optional numeric
`x` (0 is falsy and falls through to the default). -/
def qOrD (x : Option ℚ) (d : ℚ) : ℚ :=
  match x with
  | some q => if q = 0 then d else q
  | none => d

/-- First present value of an `or`-chain over optional event fields (the
payload fields are nonempty strings, so presence is truthiness). -/
def firstSome : List (Option ℚ) → Option ℚ
  | [] => none
  | some q :: _ => some q
  | none :: rest => firstSome rest

/-- List-prefix test on characters. -/
def isPrefixList : List Char → List Char → Bool
  | [], _ => true
  | _ :: _, [] => false
  | a :: as, b :: bs => a = b && isPrefixList as bs

/-- Substring containment (Python `needle in hay`). -/
def containsSub (needle : List Char) : List Char → Bool
  | [] => isPrefixList needle []
  | c :: rest => isPrefixList needle (c :: rest) || containsSub needle rest

/-- Python `link.split(":", 1)`: the part before the first colon and the part
after it (the whole string and "" when no colon occurs). -/
def splitFirstColon : List Char → List Char × List Char
  | [] => ([], [])
  | c :: rest =>
    if c = ':' then ([], rest)
    else
      let (a, b) := splitFirstColon rest
      (c :: a, b)

/-- Greedy leading-digit split. -/
def takeDigitsPrefix : List Char → List Char × List Char
  | [] => ([], [])
  | c :: rest =>
    if c.isDigit then
      let (d, r) := takeDigitsPrefix rest
      (c :: d, r)
    else ([], c :: rest)

/-- Numeric value of a digit string. -/
def digitsVal (cs : List Char) : ℕ :=
  cs.foldl (fun a c => a * 10 + (c.toNat - 48)) 0

/-- Match `pat` followed by one or more digits at the head of `cs`
(one step of `re.search(pat + r"(\d+)", ...)`). -/
def matchPatDigits (pat cs : List Char) : Option ℕ :=
  if isPrefixList pat cs then
    let (ds, _) := takeDigitsPrefix (cs.drop pat.length)
    if ds.isEmpty then none else some (digitsVal ds)
  else none

/-- Leftmost match of `pat` + digits anywhere in the text:
`re.search(r"DCA(\d+)", tag)` / `re.search(r"TP(\d+)", tag)`. -/
def findNumAfter (pat : List Char) : List Char → Option ℕ
  | [] => none
  | c :: rest =>
    match matchPatDigits pat (c :: rest) with
    | some n => some n
    | none => findNumAfter pat rest

/-- Lookup in the `open_trades` mapping. -/
def lookupTrade (st : List (String × Trade)) (k : String) : Option Trade :=
  (st.find? fun p => p.1 = k).map (·.2)

/-- In-place value update of the `open_trades` mapping. -/
def updateTrade (st : List (String × Trade)) (k : String) (t : Trade) :
    List (String × Trade) :=
  st.map fun p => if p.1 = k then (k, t) else p

/-- A private-stream execution event as `on_execution` reads it. -/
structure ExecEvent where
  orderLinkId : String
  execPrice : Option ℚ
  price : Option ℚ
  lastPrice : Option ℚ

/-- The retry loop of `TradeEngine._move_sl`: up to `remaining` further
`set_trading_stop` attempts starting at attempt index `i`, with a 100 ms
sleep between failed attempts; returns success and the call trace. -/
def move_sl_go (v : Venue) (body : StopBody) : ℕ → ℕ → Bool × List Call
  | _, 0 => (false, [])
  | i, n + 1 =>
    let c := Call.setTradingStop body
    if v.set_stop_ok i then (true, [c])
    else if n = 0 then (false, [c])
    else
      let (b, cs) := move_sl_go v body (i + 1) n
      (b, c :: Call.sleep (1/10) :: cs)

/-- `TradeEngine._move_sl` (the source's `max_retries` defaults to 3): round
the stop to tick, then retry `set_trading_stop` with 100 ms backoff; `true`
only when some attempt succeeded. -/
def move_sl (v : Venue) (symbol : String) (sl_price : ℚ) (max_retries : ℕ) :
    Bool × List Call :=
  let p := round_price sl_price v.rules.tick_size
  let body : StopBody :=
    { symbol := symbol, stopLoss := some p, trailingStop := none,
      activePrice := none, tpslMode := "Full" }
  move_sl_go v body 0 max_retries

/-- `TradeEngine._start_trailing` with `DRY_RUN = false`: anchor at the
hit TP price (market price when the signal has fewer TPs), distance
`TRAIL_DISTANCE_PCT` % of the anchor, break-even floor kept when already
moved. -/
def start_trailing (cfg : Config) (v : Venue) (tr : Trade) (tp_num : ℕ) :
    List Call :=
  let tick := v.rules.tick_size
  let anchor :=
    if tr.tp_prices.length < tp_num then v.last_price
    else tr.tp_prices.getD (tp_num - 1) 0
  let anchor := round_price anchor tick
  let dist := round_price (anchor * (cfg.TRAIL_DISTANCE_PCT / 100)) tick
  let body0 : StopBody :=
    { symbol := tr.symbol, stopLoss := none, trailingStop := some dist,
      activePrice := some anchor, tpslMode := "Full" }
  let body :=
    if tr.sl_moved_to_be && qOrD tr.entry_price 0 ≠ 0 then
      { body0 with stopLoss := some (round_price (tr.entry_price.getD 0) tick) }
    else body0
  [Call.setTradingStop body]

/-- `TradeEngine.on_execution`: entry fills flip a pending trade to open and
immediately place the post-entry orders; `:DCA`/`:TP` tagged fills are
deduplicated into the fill lists; TP1 triggers the break-even move and the
configured TP index starts trailing. -/
def on_execution (cfg : Config) (v : Venue) (now : ℚ) (ev : ExecEvent)
    (open_trades : List (String × Trade)) : List (String × Trade) × List Call :=
  let link := ev.orderLinkId
  if link = "" then (open_trades, [])
  else
    match lookupTrade open_trades link with
    | some tr =>
      if tr.status = .pending then
        let exec_price := (firstSome [ev.execPrice, ev.price, ev.lastPrice]).getD tr.trigger
        let tr1 := { tr with entry_price := some exec_price, status := .open,
                             filled_ts := some now }
        let (tr2, calls) := place_post_entry_orders cfg v tr1
        (updateTrade open_trades link tr2, calls)
      else (open_trades, [])
    | none =>
      if containsSub ":DCA".data link.data then
        let (tid, tag) := splitFirstColon link.data
        match lookupTrade open_trades (String.mk tid) with
        | none => (open_trades, [])
        | some tr =>
          match findNumAfter "DCA".data tag with
          | none => (open_trades, [])
          | some n =>
            if n ∈ tr.dca_fills_list then (open_trades, [])
            else
              (updateTrade open_trades (String.mk tid)
                { tr with dca_fills_list := tr.dca_fills_list ++ [n] }, [])
      else if containsSub ":TP".data link.data then
        let (tid, tag) := splitFirstColon link.data
        match lookupTrade open_trades (String.mk tid) with
        | none => (open_trades, [])
        | some tr =>
          match findNumAfter "TP".data tag with
          | none => (open_trades, [])
          | some tp_num =>
            if tp_num = 0 then (open_trades, [])
            else
              let tr1 :=
                if tp_num ∈ tr.tp_fills_list then tr
                else { tr with tp_fills_list := tr.tp_fills_list ++ [tp_num] }
              let (tr2, calls1) :=
                if cfg.MOVE_SL_TO_BE_ON_TP1 && tp_num == 1 && !tr1.sl_moved_to_be then
                  let be := qOrD tr1.entry_price tr1.trigger
                  let (_, cs) := move_sl v tr1.symbol be 3
                  ({ tr1 with sl_moved_to_be := true }, cs)
                else (tr1, [])
              let (tr3, calls2) :=
                if cfg.TRAIL_ACTIVATE_ON_TP && tp_num == cfg.TRAIL_AFTER_TP_INDEX
                    && !tr2.trailing_started then
                  ({ tr2 with trailing_started := true }, start_trailing cfg v tr2 tp_num)
                else (tr2, [])
              (updateTrade open_trades (String.mk tid) tr3, calls1 ++ calls2)
      else (open_trades, [])

/-- Concrete configuration with the source's defaults (config.py). -/
def exCfg : Config :=
  { LEVERAGE := 5, RISK_PCT := 5, ENTRY_TOO_FAR_PCT := 1/2,
    ENTRY_EXPIRATION_PRICE_PCT := 3/5, ENTRY_TRIGGER_BUFFER_PCT := 0,
    ENTRY_LIMIT_PRICE_OFFSET_PCT := 0, ENTRY_EXPIRATION_MIN := 180,
    INITIAL_SL_PCT := 19, TP_SPLITS := [30, 30, 30],
    FALLBACK_TP_PCT := [17/20, 33/20, 4], DCA_QTY_MULTS := [3/2, 9/4],
    MOVE_SL_TO_BE_ON_TP1 := true, TRAIL_AFTER_TP_INDEX := 3,
    TRAIL_DISTANCE_PCT := 2, TRAIL_ACTIVATE_ON_TP := true }

/-- Concrete venue snapshot: an open position of size 1 at 100, every order
accepted, every `set_trading_stop` succeeding. -/
def exVenue : Venue :=
  { last_price := 100, rules := ⟨1/10, 1/100, 1/10000⟩, wallet_equity := 1000,
    position_size := 1, position_avg := 100,
    place_order_resp := fun _ => some "oid", set_stop_ok := fun _ => true }

/-- Same venue with every `set_trading_stop` attempt failing. -/
def exVenueFail : Venue :=
  { exVenue with set_stop_ok := fun _ => false }

/-- A concrete open trade whose entry has filled at 100. -/
def exTrade : Trade :=
  { id := "T1", symbol := "ABCUSDT", order_side := .Buy, trigger := 100,
    entry_price := some 100, base_qty := 1, tp_prices := [101, 102, 104],
    tp_splits := none, dca_prices := [99, 98], sl_price := none, status := .open,
    placed_ts := some 0, filled_ts := some 1, closed_ts := none,
    entry_order_id := some "e1", tp_order_ids := [], tp1_order_id := none,
    tp_fills_list := [], dca_fills_list := [], sl_moved_to_be := false,
    trailing_started := false, post_orders_placed := false,
    realized_pnl := none, is_win := none, exit_reason := none }

theorem record_tp_ids_shape (v : Venue) (l : List (ℕ × OrderBody)) (t : Trade) :
    ∃ a b, record_tp_ids v l t =
      { t with tp_order_ids := a, tp1_order_id := b } := by
  induction l generalizing t with
  | nil => exact ⟨t.tp_order_ids, t.tp1_order_id, rfl⟩
  | cons hd tl ih =>
    obtain ⟨idx, body⟩ := hd
    rw [record_tp_ids]
    by_cases h : idx = 0
    · subst h
      obtain ⟨a, b, hab⟩ := ih
        { t with
          tp_order_ids :=
            (setAssoc t.tp_order_ids 1 (v.place_order_resp body)),
          tp1_order_id := v.place_order_resp body }
      refine ⟨a, b, ?_⟩
      simpa using hab
    · obtain ⟨a, b, hab⟩ := ih
        { t with
          tp_order_ids :=
            (setAssoc t.tp_order_ids (idx + 1) (v.place_order_resp body)) }
      refine ⟨a, b, ?_⟩
      rw [if_neg h]
      simpa using hab

theorem ppe_repeat_calls (cfg : Config) (v : Venue) (t : Trade)
    (h : ¬ v.position_size ≤ 0) :
    (place_post_entry_orders cfg v t).1.post_orders_placed = true ∧
    (place_post_entry_orders cfg v (place_post_entry_orders cfg v t).1).2 =
      (place_post_entry_orders cfg v t).2 := by
  obtain ⟨a, b, hab⟩ := record_tp_ids_shape v
    (tp_order_list t t.order_side v.rules.tick_size v.rules.qty_step
      v.rules.min_qty v.position_size
      (if t.tp_prices.isEmpty then
        generate_fallback_tps cfg (t.entry_price.getD 0) t.order_side
          v.rules.tick_size
       else t.tp_prices)
      (match t.tp_splits with
       | some s => if s.isEmpty then cfg.TP_SPLITS else s
       | none => cfg.TP_SPLITS)) t
  constructor
  · rw [place_post_entry_orders]
    simp only [if_neg h]
  · conv in place_post_entry_orders cfg v t => rw [place_post_entry_orders]
    simp only [if_neg h]
    rw [hab, place_post_entry_orders]
    simp only [if_neg h, tp_order_list, dca_order_list, generate_fallback_tps]
    rw [place_post_entry_orders]
    simp only [if_neg h, tp_order_list, dca_order_list, generate_fallback_tps]

/-- C1 counterexample: after a completed first invocation (which set
`post_orders_placed`), a direct second invocation of
`place_post_entry_orders` is not a no-op — it issues the identical
non-empty SL/TP/DCA call list again, duplicating every venue order. -/
theorem place_post_entry_second_call_repeats_orders :
    (place_post_entry_orders exCfg exVenue exTrade).1.post_orders_placed = true ∧
    (place_post_entry_orders exCfg exVenue
        (place_post_entry_orders exCfg exVenue exTrade).1).2 =
      (place_post_entry_orders exCfg exVenue exTrade).2 ∧
    (place_post_entry_orders exCfg exVenue exTrade).2 ≠ [] := by
  have h : ¬ exVenue.position_size ≤ 0 := by norm_num [exVenue]
  obtain ⟨h1, h2⟩ := ppe_repeat_calls exCfg exVenue exTrade h
  refine ⟨h1, h2, ?_⟩
  rw [place_post_entry_orders]
  simp [if_neg h]

/-- C1 amended: `place_post_entry_orders` itself has no
`post_orders_placed` guard (its venue-call list is independent of the flag);
a second delivery of the entry execution event is nevertheless a no-op
because `on_execution` invokes placement only for trades still in status
`pending`, and the first invocation's caller moved the trade to `open`. -/
theorem post_entry_idempotence_via_status_guard (cfg : Config) (v : Venue) :
    (∀ t b, (place_post_entry_orders cfg v { t with post_orders_placed := b }).2 =
      (place_post_entry_orders cfg v t).2) ∧
    (∀ now ev st tr, lookupTrade st ev.orderLinkId = some tr →
      tr.status ≠ .pending → on_execution cfg v now ev st = (st, [])) := by
  constructor
  · intro t b
    by_cases h : v.position_size ≤ 0 <;>
      simp [place_post_entry_orders, h, tp_order_list, dca_order_list,
        generate_fallback_tps]
  · intro now ev st tr h hs
    rw [on_execution]
    by_cases he : ev.orderLinkId = ""
    · simp [he]
    · simp [he, h, hs]

/-- Witness for C1's amended theorem: a re-delivered entry execution for the
already-open `exTrade` leaves the ledger unchanged and places nothing. -/
theorem post_entry_idempotence_via_status_guard_witness :
    on_execution exCfg exVenue 5 ⟨"T1", none, none, none⟩ [("T1", exTrade)] =
      ([("T1", exTrade)], []) :=
  (post_entry_idempotence_via_status_guard exCfg exVenue).2 5
    ⟨"T1", none, none, none⟩ [("T1", exTrade)] exTrade (by decide) (by decide)

/-- The break-even `set_trading_stop` body for `exTrade`. -/
def exBEBody : StopBody :=
  { symbol := "ABCUSDT", stopLoss := some 100, trailingStop := none,
    activePrice := none, tpslMode := "Full" }

theorem move_sl_all_fail (v : Venue) (s : String) (p : ℚ)
    (hfail : ∀ i, v.set_stop_ok i = false) :
    move_sl v s p 3 =
      (false,
       [Call.setTradingStop ⟨s, some (round_price p v.rules.tick_size), none,
          none, "Full"⟩,
        Call.sleep (1/10),
        Call.setTradingStop ⟨s, some (round_price p v.rules.tick_size), none,
          none, "Full"⟩,
        Call.sleep (1/10),
        Call.setTradingStop ⟨s, some (round_price p v.rules.tick_size), none,
          none, "Full"⟩]) := by
  simp [move_sl, move_sl_go, hfail]

theorem on_execution_tp1_branch (cfg : Config) (v : Venue) (now : ℚ)
    (link : String) (st : List (String × Trade)) (tr : Trade)
    (tid tag : List Char)
    (hlink : ¬ link = "")
    (hlook : lookupTrade st link = none)
    (hdca : containsSub ":DCA".data link.data = false)
    (htp : containsSub ":TP".data link.data = true)
    (hsplit : splitFirstColon link.data = (tid, tag))
    (hlook2 : lookupTrade st (String.mk tid) = some tr)
    (hnum : findNumAfter "TP".data tag = some 1)
    (hbe : cfg.MOVE_SL_TO_BE_ON_TP1 = true)
    (hmoved : tr.sl_moved_to_be = false)
    (hfills : 1 ∉ tr.tp_fills_list)
    (htrail : ¬ cfg.TRAIL_AFTER_TP_INDEX = 1) :
    on_execution cfg v now ⟨link, none, none, none⟩ st =
      (updateTrade st (String.mk tid)
        { tr with tp_fills_list := tr.tp_fills_list ++ [1],
                  sl_moved_to_be := true },
       (move_sl v tr.symbol (qOrD tr.entry_price tr.trigger) 3).2) := by
  rw [on_execution]
  simp only [hlink, if_false, hlook, hdca, htp, hsplit, hlook2, hnum, hbe,
    hmoved, if_neg, if_false, Bool.false_eq_true, ite_false, ite_true]
  simp [hfills, hmoved, hbe, htrail, Ne.symm htrail]

/-- C2 (code bug, evaluated at the failing input): with every
`set_trading_stop` attempt failing, the TP1 handler still makes exactly 3
break-even attempts at the tick-rounded entry price with 100 ms backoff and
`_move_sl` reports failure — yet `on_execution` sets `sl_moved_to_be` to
true, where the claim (and the poll-fallback path of the same engine)
require the flag to remain false. -/
theorem tp1_be_flag_set_despite_failure :
    (move_sl exVenueFail "ABCUSDT" 100 3).1 = false ∧
    (move_sl exVenueFail "ABCUSDT" 100 3).2 =
      [Call.setTradingStop exBEBody, Call.sleep (1/10),
       Call.setTradingStop exBEBody, Call.sleep (1/10),
       Call.setTradingStop exBEBody] ∧
    exBEBody.stopLoss = some (round_price 100 exVenueFail.rules.tick_size) ∧
    on_execution exCfg exVenueFail 5 ⟨"T1:TP1", none, none, none⟩
        [("T1", exTrade)] =
      ([("T1", { exTrade with tp_fills_list := [1], sl_moved_to_be := true })],
       (move_sl exVenueFail "ABCUSDT" 100 3).2) := by
  have hfail : ∀ i, exVenueFail.set_stop_ok i = false := fun _ => rfl
  have hround : round_price 100 exVenueFail.rules.tick_size = 100 := by
    norm_num [exVenueFail, exVenue, round_price, roundDec, halfEvenZ]
  have hm := move_sl_all_fail exVenueFail "ABCUSDT" 100 hfail
  refine ⟨by rw [hm], by rw [hm, hround]; rfl, by rw [hround]; rfl, ?_⟩
  have hb := on_execution_tp1_branch exCfg exVenueFail 5 "T1:TP1"
    [("T1", exTrade)] exTrade "T1".data "TP1".data
    (by decide) (by decide) (by decide) (by decide) (by decide) (by decide)
    (by decide) (by decide) (by decide) (by decide) (by decide)
  rw [hb]
  have hsym : exTrade.symbol = "ABCUSDT" := rfl
  have hq : qOrD exTrade.entry_price exTrade.trigger = 100 := by
    norm_num [exTrade, qOrD]
  rw [hsym, hq]
  congr 1

/-- Python truthiness of an optional float (`None`, absent and `0.0` are
falsy). -/
def pnlTruthy : Option ℚ → Bool
  | none => false
  | some q => decide (q ≠ 0)

/-- `TradeEngine._determine_exit_reason`.  `tp_fills` is the tracked fill
counter (kept equal to `len(tp_fills_list)` at every write site), `tp_count`
the signal's TP count with the configured fallback, `pnl` the stored
`realized_pnl` read with Python truthiness; the breakeven epsilon is 1. -/
def determine_exit_reason (cfg : Config) (t : Trade) : String :=
  let tp_fills := t.tp_fills_list.length
  let tp_count :=
    (if t.tp_prices.isEmpty then cfg.FALLBACK_TP_PCT else t.tp_prices).length
  let pnl := t.realized_pnl
  if t.trailing_started && pnlTruthy pnl && decide (0 < pnl.getD 0) then
    "trailing_stop"
  else if tp_count ≤ tp_fills then "all_tps_hit"
  else if 0 < tp_fills ∧ t.sl_moved_to_be = true ∧ pnl.isSome = true ∧
      |pnl.getD 0| < 1 then "breakeven"
  else if 0 < tp_fills then "tp" ++ toString tp_fills ++ "_then_sl"
  else if pnlTruthy pnl && decide (pnl.getD 0 < 0) then "stop_loss"
  else "unknown"

/-- The exit-reason derivation exactly as the claim words it: identical
priority chain, but clause 4 labels the exit with the LARGEST filled TP
index rather than the fill count. -/
def claim_exit_reason (cfg : Config) (t : Trade) : String :=
  let tp_count :=
    (if t.tp_prices.isEmpty then cfg.FALLBACK_TP_PCT else t.tp_prices).length
  if t.trailing_started = true ∧ 0 < t.realized_pnl.getD 0 then "trailing_stop"
  else if tp_count ≤ t.tp_fills_list.length then "all_tps_hit"
  else if 0 < t.tp_fills_list.length ∧ t.sl_moved_to_be = true ∧
      t.realized_pnl.isSome = true ∧ |t.realized_pnl.getD 0| < 1 then "breakeven"
  else if 0 < t.tp_fills_list.length then
    "tp" ++ toString (t.tp_fills_list.foldr max 0) ++ "_then_sl"
  else if t.realized_pnl.getD 0 < 0 then "stop_loss"
  else "unknown"

/-- The claim's derivation amended no further than the counterexample forces:
clause 4 labels the exit with the NUMBER of TP fills (`tp{count}_then_sl`),
as the code does; all other clauses as in the claim. -/
def claim_exit_reason_amended (cfg : Config) (t : Trade) : String :=
  let tp_count :=
    (if t.tp_prices.isEmpty then cfg.FALLBACK_TP_PCT else t.tp_prices).length
  if t.trailing_started = true ∧ 0 < t.realized_pnl.getD 0 then "trailing_stop"
  else if tp_count ≤ t.tp_fills_list.length then "all_tps_hit"
  else if 0 < t.tp_fills_list.length ∧ t.sl_moved_to_be = true ∧
      t.realized_pnl.isSome = true ∧ |t.realized_pnl.getD 0| < 1 then "breakeven"
  else if 0 < t.tp_fills_list.length then
    "tp" ++ toString t.tp_fills_list.length ++ "_then_sl"
  else if t.realized_pnl.getD 0 < 0 then "stop_loss"
  else "unknown"

/-- A closed trade whose only recorded TP fill is TP2 (possible when the TP1
order was never placed or its event was lost): the code labels it by the
fill COUNT. -/
def exTradeTp2 : Trade :=
  { exTrade with
    status := .closed
    tp_fills_list := [2]
    realized_pnl := some (-5)
    is_win := some false }

/-- C3 counterexample: on `exTradeTp2` the code derives `tp1_then_sl`
(count of fills) while the claim's priority chain derives `tp2_then_sl`
(largest fill index), so the claim as stated is false. -/
theorem exit_reason_count_vs_max :
    determine_exit_reason exCfg exTradeTp2 = "tp1_then_sl" ∧
    claim_exit_reason exCfg exTradeTp2 = "tp2_then_sl" ∧
    determine_exit_reason exCfg exTradeTp2 ≠ claim_exit_reason exCfg exTradeTp2 := by
  refine ⟨?_, ?_, ?_⟩ <;>
    norm_num [determine_exit_reason, claim_exit_reason, exTradeTp2, exTrade,
      exCfg, pnlTruthy] <;> decide

/-- C3 amended: `exit_reason` is derived by exactly the claim's priority
chain with clause 4 reading `tp{number of TP fills}_then_sl`:
trailing with pnl > 0 → trailing_stop; else fills ≥ tp_count → all_tps_hit;
else fills > 0 ∧ sl_moved_to_be ∧ |pnl| < 1 → breakeven; else fills > 0 →
tp{fills}_then_sl; else pnl < 0 → stop_loss; else unknown. -/
theorem exit_reason_spec (cfg : Config) (t : Trade) :
    determine_exit_reason cfg t = claim_exit_reason_amended cfg t := by
  rcases hp : t.realized_pnl with _ | p
  · simp only [determine_exit_reason, claim_exit_reason_amended, hp, pnlTruthy]
    norm_num
  · simp only [determine_exit_reason, claim_exit_reason_amended, hp, pnlTruthy]
    rcases lt_trichotomy p 0 with h | h | h
    · simp [h, not_lt_of_gt h, ne_of_lt h, h.not_lt]
    · simp [h]
    · simp [h, not_lt_of_gt h, ne_of_gt h, h.not_lt]

/-- Python `int()` truncation toward zero on a float value. -/
def pyInt (q : ℚ) : ℤ := if q < 0 then ⌈q⌉ else ⌊q⌋

/-- An entry of the venue's `open_orders` response as the engine reads it. -/
structure OrderStub where
  orderId : Option String
  orderLinkId : String
deriving DecidableEq, Repr

/-- One loop body of `TradeEngine.cancel_expired_entries`: a pending trade
whose entry is older than `ENTRY_EXPIRATION_MIN` minutes is cancelled
(best-effort, and never for a DRY_RUN id) and marked `expired`. -/
def expire_one (cfg : Config) (now : ℚ) (t : Trade) : Trade × List Call :=
  if t.status = .pending then
    let placed := qOrD t.placed_ts 0
    if placed ≠ 0 ∧ now - placed > cfg.ENTRY_EXPIRATION_MIN * 60 then
      let calls :=
        match t.entry_order_id with
        | some oid =>
          if oid ≠ "" ∧ oid ≠ "DRY_RUN" then [Call.cancelOrder t.symbol oid]
          else []
        | none => []
      ({ t with status := .expired }, calls)
    else (t, [])
  else (t, [])

/-- `TradeEngine.cancel_expired_entries` over the whole ledger. -/
def cancel_expired_entries (cfg : Config) (now : ℚ)
    (st : List (String × Trade)) : List (String × Trade) × List Call :=
  (st.map fun p => (p.1, (expire_one cfg now p.2).1),
   (st.map fun p => (expire_one cfg now p.2).2).flatten)

/-- `TradeEngine._fetch_and_store_trade_stats` (successful venue query, live
mode): sum the closed-PnL records created at or after the fill, store
`realized_pnl` and `is_win`, then derive `exit_reason`.  The venue's records
are passed as (createdTime in ms, closedPnl) pairs. -/
def fetch_and_store_trade_stats (cfg : Config) (pnl_records : List (ℤ × ℚ))
    (t : Trade) : Trade :=
  let filled_ts := qOrD t.filled_ts (qOrD t.placed_ts 0)
  let total :=
    ((pnl_records.filter fun r => pyInt (filled_ts * 1000) ≤ r.1).map Prod.snd).sum
  let t1 := { t with realized_pnl := some total,
                     is_win := some (decide (0 < total)) }
  { t1 with exit_reason := some (determine_exit_reason cfg t1) }

/-- One loop body of `TradeEngine.cleanup_closed_trades`: an open trade whose
venue position size is 0 has its residual `{trade_id}:*` orders cancelled,
is marked `closed` with `closed_ts := now`, and gets its final stats. -/
def close_one (cfg : Config) (sizes : String → ℚ)
    (orders_of : String → List OrderStub) (pnl_of : String → List (ℤ × ℚ))
    (now : ℚ) (t : Trade) : Trade × List Call :=
  if t.status = .open then
    if sizes t.symbol = 0 then
      let cancels := ((orders_of t.symbol).filter fun o =>
          isPrefixList (t.id ++ ":").data o.orderLinkId.data).filterMap
        fun o =>
          match o.orderId with
          | some oid =>
            if oid ≠ "" then some (Call.cancelOrder t.symbol oid) else none
          | none => none
      let t1 := { t with status := .closed, closed_ts := some now }
      (fetch_and_store_trade_stats cfg (pnl_of t.symbol) t1, cancels)
    else (t, [])
  else (t, [])

/-- `TradeEngine.cleanup_closed_trades`: the close sweep over every open
trade followed by the 24 h archive prune, which removes closed/expired trades
from the active ledger (the bounded history append does not touch statuses
and is not modelled here). -/
def cleanup_closed_trades (cfg : Config) (sizes : String → ℚ)
    (orders_of : String → List OrderStub) (pnl_of : String → List (ℤ × ℚ))
    (now : ℚ) (st : List (String × Trade)) : List (String × Trade) × List Call :=
  let st1 := st.map fun p => (p.1, (close_one cfg sizes orders_of pnl_of now p.2).1)
  let calls := (st.map fun p => (close_one cfg sizes orders_of pnl_of now p.2).2).flatten
  let cutoff := now - 86400
  let st2 := st1.filter fun p =>
    ¬((p.2.status = .closed ∨ p.2.status = .expired) ∧
      qOrD p.2.closed_ts (qOrD p.2.placed_ts 0) < cutoff)
  (st2, calls)

/-- The allowed status transitions of the spec: stay put, pending to
open/cancelled/expired, or open to closed/cancelled. -/
def statusStep (s s' : Status) : Prop :=
  s = s' ∨
  (s = .pending ∧ (s' = .open ∨ s' = .cancelled ∨ s' = .expired)) ∨
  (s = .open ∧ (s' = .closed ∨ s' = .cancelled))

theorem assoc_unique {st : List (String × Trade)}
    (hnd : (st.map Prod.fst).Nodup) {k : String} {a b : Trade}
    (ha : (k, a) ∈ st) (hb : (k, b) ∈ st) : a = b := by
  induction st with
  | nil => cases ha
  | cons p tl ih =>
    simp only [List.map_cons, List.nodup_cons] at hnd
    rcases List.mem_cons.mp ha with rfl | ha' <;>
      rcases List.mem_cons.mp hb with hb' | hb'
    · exact congrArg Prod.snd hb'.symm
    · exact absurd (List.mem_map.mpr ⟨(k, b), hb', rfl⟩) hnd.1
    · rw [← hb'] at hnd
      exact absurd (List.mem_map.mpr ⟨(k, a), ha', rfl⟩) hnd.1
    · exact ih hnd.2 ha' hb'

theorem lookupTrade_mem {st : List (String × Trade)} {k : String} {t : Trade}
    (h : lookupTrade st k = some t) : (k, t) ∈ st := by
  rw [lookupTrade] at h
  rcases ho : st.find? fun p => p.1 = k with _ | p
  · rw [ho] at h; cases h
  · rw [ho] at h
    have hm := List.mem_of_find?_eq_some ho
    have hp := List.find?_some ho
    obtain ⟨pk, pt⟩ := p
    simp only [decide_eq_true_eq] at hp
    cases h
    rw [← hp]
    exact hm

theorem mem_updateTrade {st : List (String × Trade)} {k K : String}
    {t' tr' : Trade} (h : (k, t') ∈ updateTrade st K tr') :
    (k = K ∧ t' = tr') ∨ ((k, t') ∈ st ∧ k ≠ K) := by
  rw [updateTrade] at h
  obtain ⟨q, hq, hfq⟩ := List.mem_map.mp h
  by_cases hk : q.1 = K
  · rw [if_pos hk] at hfq
    exact Or.inl ⟨(congrArg Prod.fst hfq).symm, (congrArg Prod.snd hfq).symm⟩
  · rw [if_neg hk] at hfq
    rw [hfq] at hq hk
    exact Or.inr ⟨hq, hk⟩

theorem mem_map_assoc (f : Trade → Trade) {st : List (String × Trade)}
    {k : String} {t'} (h : (k, t') ∈ st.map fun p => (p.1, f p.2)) :
    ∃ q, (k, q) ∈ st ∧ t' = f q := by
  obtain ⟨p, hp, hfp⟩ := List.mem_map.mp h
  refine ⟨p.2, ?_, (congrArg Prod.snd hfp).symm⟩
  have hk : p.1 = k := congrArg Prod.fst hfp
  rw [← hk]
  exact hp

theorem record_tp_ids_status (v : Venue) (l : List (ℕ × OrderBody)) (t : Trade) :
    (record_tp_ids v l t).status = t.status := by
  induction l generalizing t with
  | nil => rfl
  | cons hd tl ih =>
    obtain ⟨idx, body⟩ := hd
    rw [record_tp_ids]
    by_cases h : idx = 0 <;> simp [h, ih]

theorem ppe_status (cfg : Config) (v : Venue) (t : Trade) :
    (place_post_entry_orders cfg v t).1.status = t.status := by
  rw [place_post_entry_orders]
  split
  · rfl
  · simp [record_tp_ids_status]

theorem on_execution_shape (cfg : Config) (v : Venue) (now : ℚ) (ev : ExecEvent)
    (st : List (String × Trade)) :
    (on_execution cfg v now ev st).1 = st ∨
    ∃ K trK tr', lookupTrade st K = some trK ∧
      (on_execution cfg v now ev st).1 = updateTrade st K tr' ∧
      statusStep trK.status tr'.status := by
  rw [on_execution]
  by_cases he : ev.orderLinkId = ""
  · rw [if_pos he]
    exact Or.inl rfl
  rw [if_neg he]
  rcases hl : lookupTrade st ev.orderLinkId with _ | tr
  · -- link is not a trade id: DCA / TP tag branches
    by_cases hdca : containsSub ":DCA".data ev.orderLinkId.data = true
    · simp only [hdca, if_true]
      rcases hl2 : lookupTrade st
          (String.mk (splitFirstColon ev.orderLinkId.data).1) with _ | tr
      · simp only [hl2]
        exact Or.inl (by trivial)
      · simp only [hl2]
        rcases hn : findNumAfter "DCA".data (splitFirstColon ev.orderLinkId.data).2
          with _ | n
        · simp only [hn]
          exact Or.inl (by trivial)
        · simp only [hn]
          by_cases hmem : n ∈ tr.dca_fills_list
          · simp only [hmem, if_pos]
            exact Or.inl (by trivial)
          · simp only [hmem, if_neg, if_false, ite_false]
            exact Or.inr ⟨_, tr,
              { tr with dca_fills_list := tr.dca_fills_list ++ [n] },
              hl2, rfl, Or.inl rfl⟩
    · rw [if_neg hdca]
      by_cases htp : containsSub ":TP".data ev.orderLinkId.data = true
      · rw [if_pos htp]
        rcases hl2 : lookupTrade st
            (String.mk (splitFirstColon ev.orderLinkId.data).1) with _ | tr
        · simp only [hl2]
          exact Or.inl (by trivial)
        · simp only [hl2]
          rcases hn : findNumAfter "TP".data (splitFirstColon ev.orderLinkId.data).2
            with _ | n
          · simp only [hn]
            exact Or.inl (by trivial)
          · simp only [hn]
            by_cases hz : n = 0
            · simp only [hz, if_pos]
              exact Or.inl (by trivial)
            · rw [if_neg hz]
              refine Or.inr ⟨_, tr, _, hl2, rfl, Or.inl ?_⟩
              repeat' split
              all_goals rfl
      · rw [if_neg htp]
        exact Or.inl (by trivial)
  · -- link is a trade id: entry-fill branch
    simp only
    by_cases hp : tr.status = .pending
    · rw [if_pos hp]
      rcases he2 : place_post_entry_orders cfg v
          { tr with
            entry_price :=
              some ((firstSome [ev.execPrice, ev.price, ev.lastPrice]).getD tr.trigger),
            status := .open, filled_ts := some now } with ⟨tr2, calls⟩
      refine Or.inr ⟨ev.orderLinkId, tr, tr2, hl, ?_, ?_⟩
      · simp only [he2]
      · have h2 : tr2.status = Status.open := by
          have := ppe_status cfg v
            { tr with
              entry_price :=
                some ((firstSome [ev.execPrice, ev.price, ev.lastPrice]).getD tr.trigger),
              status := .open, filled_ts := some now }
          rw [he2] at this
          exact this
        exact Or.inr (Or.inl ⟨hp, Or.inl h2⟩)
    · rw [if_neg hp]
      exact Or.inl (by trivial)

theorem expire_one_status (cfg : Config) (now : ℚ) (t : Trade) :
    statusStep t.status (expire_one cfg now t).1.status := by
  rw [expire_one]
  by_cases h : t.status = .pending
  · simp only [if_pos h]
    by_cases hc : qOrD t.placed_ts 0 ≠ 0 ∧
        now - qOrD t.placed_ts 0 > cfg.ENTRY_EXPIRATION_MIN * 60
    · simp only [if_pos hc]
      exact Or.inr (Or.inl ⟨h, Or.inr (Or.inr rfl)⟩)
    · simp only [if_neg hc]
      exact Or.inl rfl
  · simp only [if_neg h]
    exact Or.inl rfl

theorem close_one_status (cfg : Config) (sizes : String → ℚ)
    (orders_of : String → List OrderStub) (pnl_of : String → List (ℤ × ℚ))
    (now : ℚ) (t : Trade) :
    statusStep t.status (close_one cfg sizes orders_of pnl_of now t).1.status := by
  rw [close_one]
  by_cases h : t.status = .open
  · rw [if_pos h]
    by_cases h0 : sizes t.symbol = 0
    · rw [if_pos h0]
      exact Or.inr (Or.inr ⟨h, Or.inl rfl⟩)
    · rw [if_neg h0]
      exact Or.inl rfl
  · rw [if_neg h]
    exact Or.inl rfl

/-- C4: trade status moves only forward under every engine operation
(execution events, expiry sweep, close sweep): any trade present before and
after an operation takes a step of `statusStep` — pending may only become
open, cancelled or expired; open may only become closed or cancelled; and a
terminal status (cancelled, expired, closed) never changes, so no trade
returns to pending or open. -/
theorem status_monotone (cfg : Config) (v : Venue) (now : ℚ)
    (sizes : String → ℚ) (orders_of : String → List OrderStub)
    (pnl_of : String → List (ℤ × ℚ)) :
    (∀ ev st k t t', (st.map Prod.fst).Nodup → (k, t) ∈ st →
      (k, t') ∈ (on_execution cfg v now ev st).1 →
      statusStep t.status t'.status) ∧
    (∀ st k t t', (st.map Prod.fst).Nodup → (k, t) ∈ st →
      (k, t') ∈ (cancel_expired_entries cfg now st).1 →
      statusStep t.status t'.status) ∧
    (∀ st k t t', (st.map Prod.fst).Nodup → (k, t) ∈ st →
      (k, t') ∈ (cleanup_closed_trades cfg sizes orders_of pnl_of now st).1 →
      statusStep t.status t'.status) ∧
    (∀ s s', statusStep s s' → (s = .cancelled ∨ s = .expired ∨ s = .closed) →
      s' = s) := by
  refine ⟨?_, ?_, ?_, ?_⟩
  · intro ev st k t t' hnd ht ht'
    rcases on_execution_shape cfg v now ev st with hs | ⟨K, trK, tr', hlK, hup, hstep⟩
    · rw [hs] at ht'
      exact Or.inl (congrArg Trade.status (assoc_unique hnd ht ht'))
    · rw [hup] at ht'
      rcases mem_updateTrade ht' with ⟨hkK, rfl⟩ | ⟨hmem, _⟩
      · have htK : t = trK := by
          subst hkK
          exact assoc_unique hnd ht (lookupTrade_mem hlK)
        rw [htK]
        exact hstep
      · exact Or.inl (congrArg Trade.status (assoc_unique hnd ht hmem))
  · intro st k t t' hnd ht ht'
    rw [cancel_expired_entries] at ht'
    obtain ⟨q, hq, hfq⟩ := mem_map_assoc (fun x => (expire_one cfg now x).1) ht'
    rw [assoc_unique hnd ht hq, hfq]
    exact expire_one_status cfg now q
  · intro st k t t' hnd ht ht'
    have ht'' := List.mem_of_mem_filter ht'
    obtain ⟨q, hq, hfq⟩ :=
      mem_map_assoc (fun x => (close_one cfg sizes orders_of pnl_of now x).1) ht''
    rw [assoc_unique hnd ht hq, hfq]
    exact close_one_status cfg sizes orders_of pnl_of now q
  · intro s s' h ht
    rcases h with h | ⟨h1, _⟩ | ⟨h1, _⟩
    · exact h.symm
    · rcases ht with rfl | rfl | rfl <;> simp at h1
    · rcases ht with rfl | rfl | rfl <;> simp at h1

/-- Witness for C4: an execution event whose link matches no trade leaves
the single-trade ledger unchanged, a reflexive (allowed) step. -/
theorem status_monotone_witness : statusStep exTrade.status exTrade.status :=
  (status_monotone exCfg exVenue 5 (fun _ => 1) (fun _ => []) (fun _ => [])).1
    ⟨"x", none, none, none⟩ [("T1", exTrade)] "T1" exTrade exTrade
    (by decide) (by decide) (by decide)

/-! ### Signal parser (signal_parser.py)

The AO-format regexes are embedded as hand-rolled scanners with the same
leftmost-match, greedy semantics.  Case-insensitivity (`re.I`) and
`str.upper` are modelled on the ASCII range, `\s` as the ASCII whitespace
class, and prices as exact decimals. -/

/-- ASCII uppercase (`str.upper` / `re.IGNORECASE` on the ASCII range). -/
def upChar (c : Char) : Char :=
  if 'a' ≤ c ∧ c ≤ 'z' then Char.ofNat (c.toNat - 32) else c

/-- Case-insensitive character equality. -/
def ciEq (a b : Char) : Bool := upChar a = upChar b

/-- Greedy `\s*`. -/
def skipWs : List Char → List Char
  | [] => []
  | c :: rest => if c.isWhitespace then skipWs rest else c :: rest

/-- Match a literal case-insensitively, returning the rest on success. -/
def matchLitCI : List Char → List Char → Option (List Char)
  | [], cs => some cs
  | _ :: _, [] => none
  | l :: ls, c :: cs => if ciEq l c then matchLitCI ls cs else none

/-- Substring containment, case-insensitive
(`RE_STATUS_CANCELLED` / `RE_STATUS_CLOSED`). -/
def containsCI (needle : List Char) : List Char → Bool
  | [] => needle.isEmpty
  | c :: rest => (matchLitCI needle (c :: rest)).isSome || containsCI needle rest

/-- Leftmost case-insensitive occurrence, returning the text from it
(`text[text.upper().find(needle):]`). -/
def dropToSubCI (needle : List Char) : List Char → Option (List Char)
  | [] => if needle.isEmpty then some [] else none
  | c :: rest =>
    if (matchLitCI needle (c :: rest)).isSome then some (c :: rest)
    else dropToSubCI needle rest

/-- `RE_STATUS_BREAKEVEN.search`: `⚖` + optional variation selector + `\s*`
+ `BREAKEVEN` (the `?` in the pattern binds only to the selector). -/
def hasBreakeven : List Char → Bool
  | [] => false
  | c :: rest =>
    (c = '⚖' &&
      (let r1 := match rest with
        | v :: r => if v = '️' then r else v :: r
        | [] => []
       (matchLitCI "BREAKEVEN".data (skipWs r1)).isSome)) || hasBreakeven rest

/-- `RE_STATUS_WIN.search`: `✅\s*TP\d+\s*WIN`. -/
def hasWin : List Char → Bool
  | [] => false
  | c :: rest =>
    (c = '✅' &&
      (match matchLitCI "TP".data (skipWs rest) with
       | none => false
       | some r2 =>
         let p := takeDigitsPrefix r2
         !p.1.isEmpty && (matchLitCI "WIN".data (skipWs p.2)).isSome)) ||
    hasWin rest

/-- `RE_STATUS_ACTIVE.search`: `🟢\s*ACTIVE`. -/
def hasActive : List Char → Bool
  | [] => false
  | c :: rest =>
    (c = '🟢' && (matchLitCI "ACTIVE".data (skipWs rest)).isSome) ||
    hasActive rest

/-- One position of `RE_SIDE`: `(LONG|SHORT)\s+SIGNAL`, alternation tried
left to right, returning the canonical upper-cased group. -/
def matchSideAt (cs : List Char) : Option String :=
  let tail : List Char → Bool := fun r =>
    match r with
    | c :: rest => c.isWhitespace && (matchLitCI "SIGNAL".data (skipWs rest)).isSome
    | [] => false
  match matchLitCI "LONG".data cs with
  | some r =>
    if tail r then some "LONG"
    else match matchLitCI "SHORT".data cs with
      | some r' => if tail r' then some "SHORT" else none
      | none => none
  | none =>
    match matchLitCI "SHORT".data cs with
    | some r' => if tail r' then some "SHORT" else none
    | none => none

/-- `RE_SIDE.search`: leftmost match. -/
def findSide : List Char → Option String
  | [] => none
  | c :: rest =>
    match matchSideAt (c :: rest) with
    | some w => some w
    | none => findSide rest

/-- `[A-Z0-9]+` under `re.I`. -/
def isAsciiAlnum (c : Char) : Bool :=
  ('A' ≤ c && c ≤ 'Z') || ('a' ≤ c && c ≤ 'z') || c.isDigit

/-- Greedy alphanumeric prefix. -/
def takeAlnumPrefix : List Char → List Char × List Char
  | [] => ([], [])
  | c :: rest =>
    if isAsciiAlnum c then
      let p := takeAlnumPrefix rest
      (c :: p.1, p.2)
    else ([], c :: rest)

/-- One position of `RE_SYMBOL`:
`AO\s*Algo\s*[•·]\s*([A-Z0-9]+)\s*#?\d*` (trailing parts optional),
returning the captured group. -/
def matchSymbolAt (cs : List Char) : Option (List Char) :=
  match matchLitCI "AO".data cs with
  | none => none
  | some r1 =>
    match matchLitCI "ALGO".data (skipWs r1) with
    | none => none
    | some r3 =>
      match skipWs r3 with
      | c :: r5 =>
        if c = '•' || c = '·' then
          let p := takeAlnumPrefix (skipWs r5)
          if p.1.isEmpty then none else some p.1
        else none
      | [] => none

/-- `RE_SYMBOL.search`: leftmost match. -/
def findSymbol : List Char → Option (List Char)
  | [] => none
  | c :: rest =>
    match matchSymbolAt (c :: rest) with
    | some g => some g
    | none => findSymbol rest

/-- Exact value of a decimal literal `ds.fs`. -/
def decimalVal (ds fs : List Char) : ℚ :=
  (digitsVal ds : ℚ) + (digitsVal fs : ℚ) / 10 ^ fs.length

/-- The `NUM` pattern `([0-9]+(?:\.[0-9]+)?)`, greedy, at the head. -/
def parseNumAt (cs : List Char) : Option (ℚ × List Char) :=
  let p := takeDigitsPrefix cs
  if p.1.isEmpty then none
  else
    match p.2 with
    | '.' :: r2 =>
      if (takeDigitsPrefix r2).1.isEmpty then some ((digitsVal p.1 : ℚ), p.2)
      else some (decimalVal p.1 (takeDigitsPrefix r2).1, (takeDigitsPrefix r2).2)
    | _ => some ((digitsVal p.1 : ℚ), p.2)

/-- `RE_ENTRY.search`: leftmost `\$NUM`. -/
def findDollarNum : List Char → Option ℚ
  | [] => none
  | c :: rest =>
    if c = '$' then
      match parseNumAt rest with
      | some q => some q.1
      | none => findDollarNum rest
    else findDollarNum rest

/-- One position of `RE_TP`: `TP(\d+)\s*:\s*\$?NUM` under `re.I`, returning
(index, price) and the rest of the text after the match. -/
def matchTpAt (cs : List Char) : Option ((ℕ × ℚ) × List Char) :=
  match matchLitCI "TP".data cs with
  | none => none
  | some r1 =>
    let d := takeDigitsPrefix r1
    if d.1.isEmpty then none
    else
      match skipWs d.2 with
      | ':' :: r4 =>
        let r5 := skipWs r4
        let r6 := match r5 with
          | '$' :: rr => rr
          | _ => r5
        match parseNumAt r6 with
        | some q => some ((digitsVal d.1, q.1), q.2)
        | none => none
      | _ => none

/-- `RE_TP.finditer`: non-overlapping leftmost scan (fuelled by the input
length, which bounds the number of scan steps). -/
def tpMatchesGo : ℕ → List Char → List (ℕ × ℚ)
  | 0, _ => []
  | _ + 1, [] => []
  | fuel + 1, c :: rest =>
    match matchTpAt (c :: rest) with
    | some m => m.1 :: tpMatchesGo fuel m.2
    | none => tpMatchesGo fuel rest

def tpMatches (cs : List Char) : List (ℕ × ℚ) := tpMatchesGo cs.length cs

/-- One position of `RE_SL`: `SL\s*:\s*\$?NUM` under `re.I`. -/
def matchSlAt (cs : List Char) : Option ℚ :=
  match matchLitCI "SL".data cs with
  | none => none
  | some r1 =>
    match skipWs r1 with
    | ':' :: r2 =>
      let r3 := skipWs r2
      let r4 := match r3 with
        | '$' :: rr => rr
        | _ => r3
      match parseNumAt r4 with
      | some q => some q.1
      | none => none
    | _ => none

/-- `RE_SL.search`: leftmost match. -/
def findSl : List Char → Option ℚ
  | [] => none
  | c :: rest =>
    match matchSlAt (c :: rest) with
    | some q => some q
    | none => findSl rest

/-- Pad with `0.0` placeholders up to length `n`
(the `while len(tps) < idx: tps.append(0.0)` loop). -/
def padTo (l : List ℚ) (n : ℕ) : List ℚ :=
  l ++ List.replicate (n - l.length) 0

/-- One TP match folded into the accumulator: indices above 3 are skipped;
index 0 hits Python's `tps[-1]` (last element, `IndexError` on an empty
list, which propagates so no intent is returned); otherwise pad and set. -/
def placeTp (l : List ℚ) (m : ℕ × ℚ) : Option (List ℚ) :=
  if 3 < m.1 then some l
  else if m.1 = 0 then
    if l.isEmpty then none
    else some (l.set (l.length - 1) m.2)
  else some ((padTo l m.1).set (m.1 - 1) m.2)

/-- The TP list built from the matches, with the final
`[p for p in tps if p > 0]` filter. -/
def buildTps (ms : List (ℕ × ℚ)) : Option (List ℚ) :=
  (List.foldlM placeTp [] ms).map (List.filter fun p => decide (0 < p))

/-- The section of the text from the first case-insensitive "ENTRY" on
(the whole text when absent). -/
def entrySection (cs : List Char) : List Char :=
  match dropToSubCI "ENTRY".data cs with
  | some sec => sec
  | none => cs

/-- The parsed signal dictionary. -/
structure SignalIntent where
  base : String
  symbol : String
  side : String
  trigger : ℚ
  tp_prices : List ℚ
  dca_prices : List ℚ
  sl_price : Option ℚ
  raw : String
deriving DecidableEq, Repr

/-- `parse_signal` from signal_parser.py: reject terminal statuses, require
ACTIVE or a LONG/SHORT header, extract symbol, side, the first `$` amount
after `ENTRY`, the TP1–TP3 ladder and the optional SL. -/
def parse_signal (text : String) (quote : String) : Option SignalIntent :=
  let cs := text.data
  if hasBreakeven cs then none
  else if hasWin cs then none
  else if containsCI "CANCELLED".data cs || containsCI "CANCELED".data cs then none
  else if containsCI "CLOSED".data cs then none
  else if !hasActive cs && (findSide cs).isNone then none
  else
    match findSymbol cs with
    | none => none
    | some g =>
      let base := String.mk (g.map upChar)
      let symbol := base ++ quote
      match findSide cs with
      | none => none
      | some w =>
        let side := if w = "SHORT" then "sell" else "buy"
        match findDollarNum (entrySection cs) with
        | none => none
        | some trigger =>
          match buildTps (tpMatches cs) with
          | none => none
          | some tps =>
            some { base := base, symbol := symbol, side := side,
                   trigger := trigger, tp_prices := tps, dca_prices := [],
                   sl_price := findSl cs, raw := text }

theorem parseNumAt_nonneg {cs : List Char} {pr : ℚ × List Char}
    (h : parseNumAt cs = some pr) : 0 ≤ pr.1 := by
  rw [parseNumAt] at h
  split at h
  · cases h
  · split at h
    · split at h <;> cases h
      · exact Nat.cast_nonneg _
      · rw [decimalVal]
        positivity
    · cases h
      exact Nat.cast_nonneg _

theorem findDollarNum_nonneg {cs : List Char} {q : ℚ}
    (h : findDollarNum cs = some q) : 0 ≤ q := by
  induction cs with
  | nil => cases h
  | cons c rest ih =>
    rw [findDollarNum] at h
    split at h
    · split at h
      · rename_i pr heq
        cases h
        exact parseNumAt_nonneg heq
      · exact ih h
    · exact ih h

theorem buildTps_pos {ms : List (ℕ × ℚ)} {l : List ℚ}
    (h : buildTps ms = some l) : ∀ p ∈ l, 0 < p := by
  intro p hp
  rw [buildTps, Option.map_eq_some'] at h
  obtain ⟨a, _, rfl⟩ := h
  exact of_decide_eq_true (List.mem_filter.mp hp).2

theorem foldl_placeTp_len {ms : List (ℕ × ℚ)} :
    ∀ {acc l : List ℚ}, acc.length ≤ 3 →
      List.foldlM placeTp acc ms = some l → l.length ≤ 3 := by
  induction ms with
  | nil =>
    intro acc l h3 h
    cases h
    exact h3
  | cons m ms ih =>
    intro acc l h3 h
    rw [List.foldlM_cons] at h
    rcases hm : placeTp acc m with _ | acc'
    · simp [hm] at h
    · simp only [hm, Option.pure_def, Option.bind_eq_bind, Option.some_bind] at h
      refine ih ?_ h
      rw [placeTp] at hm
      split at hm
      · cases hm
        exact h3
      · split at hm
        · split at hm
          · cases hm
          · cases hm
            simpa using h3
        · cases hm
          rw [List.length_set, padTo, List.length_append, List.length_replicate]
          omega

theorem buildTps_len {ms : List (ℕ × ℚ)} {l : List ℚ}
    (h : buildTps ms = some l) : l.length ≤ 3 := by
  rw [buildTps, Option.map_eq_some'] at h
  obtain ⟨a, ha, rfl⟩ := h
  exact le_trans (List.length_filter_le _ _) (foldl_placeTp_len (by simp) ha)

theorem foldl_placeTp_filter (ms : List (ℕ × ℚ)) :
    ∀ acc, List.foldlM placeTp acc ms =
      List.foldlM placeTp acc (ms.filter fun m => m.1 ≤ 3) := by
  induction ms with
  | nil => intro acc; rfl
  | cons m ms ih =>
    intro acc
    by_cases hm : m.1 ≤ 3
    · rw [List.filter_cons_of_pos (by simpa using hm), List.foldlM_cons,
        List.foldlM_cons]
      rcases placeTp acc m with _ | acc'
      · rfl
      · exact ih acc'
    · rw [List.filter_cons_of_neg (by simpa using hm), List.foldlM_cons]
      have : placeTp acc m = some acc := by
        rw [placeTp, if_pos (by omega)]
      rw [this]
      exact ih acc

/-- Elimination for a successful parse: the trigger came from the leftmost
`$`-amount search, the TP list from the builder over the TP matches, and the
DCA list is always empty. -/
theorem parse_signal_parts {text quote : String} {intent : SignalIntent}
    (h : parse_signal text quote = some intent) :
    (∃ sec, findDollarNum sec = some intent.trigger) ∧
    buildTps (tpMatches text.data) = some intent.tp_prices ∧
    intent.dca_prices = [] := by
  rw [parse_signal] at h
  repeat (split at h; · cases h)
  simp only [] at h
  repeat (split at h; · cases h)
  rename_i oq q htrig otps tps htps
  cases h
  exact ⟨⟨_, htrig⟩, htps, rfl⟩

/-- C9: `parse_signal` returns at most 3 TP prices: the TP-list builder
ignores labels with index above 3 (building from only the `≤ 3` matches
yields the same list), and missing indices leave no placeholder entries —
every returned TP price is strictly positive while placeholders are 0. -/
theorem parse_signal_tp_bound (text quote : String) (intent : SignalIntent)
    (h : parse_signal text quote = some intent) :
    intent.tp_prices.length ≤ 3 ∧ (∀ p ∈ intent.tp_prices, 0 < p) ∧
    ∀ ms, buildTps ms = buildTps (ms.filter fun m => m.1 ≤ 3) := by
  obtain ⟨-, htps, -⟩ := parse_signal_parts h
  exact ⟨buildTps_len htps, buildTps_pos htps,
    fun ms => by rw [buildTps, buildTps, foldl_placeTp_filter]⟩

/-- Witness text for the parser theorems. -/
def exSignalText : String := "AO Algo · ABC #1\nLONG SIGNAL\nENTRY $5\nTP1: $6"

/-- The intent `exSignalText` parses to. -/
def exIntent : SignalIntent :=
  { base := "ABC", symbol := "ABCUSDT", side := "buy", trigger := 5,
    tp_prices := [6], dca_prices := [], sl_price := none, raw := exSignalText }

/-- Witness for C9 at a concrete parsed signal. -/
theorem parse_signal_tp_bound_witness :
    exIntent.tp_prices.length ≤ 3 ∧ (∀ p ∈ exIntent.tp_prices, 0 < p) ∧
    ∀ ms, buildTps ms = buildTps (ms.filter fun m => m.1 ≤ 3) :=
  parse_signal_tp_bound exSignalText "USDT" exIntent (by decide)

/-- C8 counterexample: the text below is not rejected (LONG header, AO
symbol line, entry amount present) yet parses with `trigger_price = 0`,
because the parser never checks the entry amount for positivity — only the
TP list is filtered to positive values. -/
theorem parse_signal_zero_trigger :
    (parse_signal "AO Algo · ABC #1\nLONG SIGNAL\nENTRY $0\nTP1: $5" "USDT").map
      SignalIntent.trigger = some 0 ∧
    (parse_signal "AO Algo · ABC #1\nLONG SIGNAL\nENTRY $0\nTP1: $5" "USDT").map
      SignalIntent.tp_prices = some [5] := by decide

/-- C8 amended: every SignalIntent returned by `parse_signal` has a
nonnegative trigger price — strict positivity fails, a `$0` entry parses —
and every TP price and DCA price it carries is strictly positive. -/
theorem parse_signal_price_invariant (text quote : String) (intent : SignalIntent)
    (h : parse_signal text quote = some intent) :
    0 ≤ intent.trigger ∧ (∀ p ∈ intent.tp_prices, 0 < p) ∧
    ∀ p ∈ intent.dca_prices, 0 < p := by
  obtain ⟨⟨sec, htrig⟩, htps, hdca⟩ := parse_signal_parts h
  refine ⟨findDollarNum_nonneg htrig, buildTps_pos htps, ?_⟩
  rw [hdca]
  intro p hp
  cases hp

/-- Witness for C8's amended theorem at a concrete parsed signal. -/
theorem parse_signal_price_invariant_witness :
    0 ≤ exIntent.trigger ∧ (∀ p ∈ exIntent.tp_prices, 0 < p) ∧
    ∀ p ∈ exIntent.dca_prices, 0 < p :=
  parse_signal_price_invariant exSignalText "USDT" exIntent (by decide)

/-! ### State store (main.py `load_state` / `save_state`)

The state file holds one JSON document.  `save_state` writes
`json.dumps(st, ensure_ascii=False, indent=2)` to a temp file and renames it
over the state file; `load_state` reads it back with `json.loads`, falling
back to the default state when the file is missing or unparsable.  JSON
documents are embedded with numbers as decimal literals (mantissa and
number of fraction digits, the form both dumps emits and loads reads for the
ledger's values) and text as character lists. -/

mutual
inductive Json where
  | null
  | bool (b : Bool)
  | num (m : ℤ) (e : ℕ)
  | str (s : List Char)
  | arr (xs : JList)
  | obj (xs : JObj)
inductive JList where
  | nil
  | cons (hd : Json) (tl : JList)
inductive JObj where
  | onil
  | ocons (k : List Char) (v : Json) (tl : JObj)
end

deriving instance DecidableEq for Json, JList, JObj

/-- Decimal digits of `n`, most significant first (accumulator form,
fuelled: `n` itself bounds the digit count). -/
def natCharsGo : ℕ → ℕ → List Char → List Char
  | 0, _, acc => acc
  | fuel + 1, n, acc =>
    if n = 0 then acc
    else natCharsGo fuel (n / 10) (Char.ofNat (48 + n % 10) :: acc)

/-- Decimal rendering of a natural number (`"0"` for zero). -/
def natChars (n : ℕ) : List Char :=
  if n = 0 then ['0'] else natCharsGo n n []

/-- `f` rendered with exactly `e` digits (zero-padded), for `f < 10^e`. -/
def zeroPad (f e : ℕ) : List Char :=
  List.replicate (e - (natChars f).length) '0' ++ natChars f

/-- Python's rendering of the number `m / 10^e`: the integer digits, and for
`e > 0` a point and exactly `e` fraction digits. -/
def renderNum (m : ℤ) (e : ℕ) : List Char :=
  let a := m.natAbs
  let core :=
    if e = 0 then natChars a
    else natChars (a / 10 ^ e) ++ '.' :: zeroPad (a % 10 ^ e) e
  if m < 0 then '-' :: core else core

/-- Lower-case hex digit. -/
def hexDigitChar (n : ℕ) : Char :=
  if n < 10 then Char.ofNat (48 + n) else Char.ofNat (87 + n)

/-- `json.dumps` string escaping with `ensure_ascii=False`: quote,
backslash and the short control escapes, `\u00xx` for other control
characters, everything else verbatim. -/
def escapeChar (c : Char) : List Char :=
  if c = '"' then ['\\', '"']
  else if c = '\\' then ['\\', '\\']
  else if c = '\n' then ['\\', 'n']
  else if c = '\r' then ['\\', 'r']
  else if c = '\t' then ['\\', 't']
  else if c = '\x08' then ['\\', 'b']
  else if c = '\x0c' then ['\\', 'f']
  else if c.toNat < 32 then
    ['\\', 'u', '0', '0', hexDigitChar (c.toNat / 16), hexDigitChar (c.toNat % 16)]
  else [c]

def escapeStr (s : List Char) : List Char :=
  s.foldr (fun c acc => escapeChar c ++ acc) []

/-- Indentation (`indent=2` nesting). -/
def pad (n : ℕ) : List Char := List.replicate n ' '

mutual
/-- `json.dumps(·, ensure_ascii=False, indent=2)` at indent level `d`. -/
def renderJ : Json → ℕ → List Char
  | .null, _ => "null".data
  | .bool true, _ => "true".data
  | .bool false, _ => "false".data
  | .num m e, _ => renderNum m e
  | .str s, _ => '"' :: (escapeStr s ++ ['"'])
  | .arr .nil, _ => "[]".data
  | .arr (.cons x xs), d =>
    '[' :: '\n' :: (pad (d + 2) ++ renderJ x (d + 2) ++ renderItems xs (d + 2) ++
      '\n' :: (pad d ++ [']']))
  | .obj .onil, _ => "{}".data
  | .obj (.ocons k v tl), d =>
    '{' :: '\n' :: (pad (d + 2) ++ ('"' :: (escapeStr k ++ ['"'])) ++ ':' :: ' ' ::
      (renderJ v (d + 2) ++ renderFields tl (d + 2) ++ '\n' :: (pad d ++ ['}'])))
def renderItems : JList → ℕ → List Char
  | .nil, _ => []
  | .cons x xs, d => ',' :: '\n' :: (pad d ++ renderJ x d ++ renderItems xs d)
def renderFields : JObj → ℕ → List Char
  | .onil, _ => []
  | .ocons k v tl, d =>
    ',' :: '\n' :: (pad d ++ ('"' :: (escapeStr k ++ ['"'])) ++ ':' :: ' ' ::
      (renderJ v d ++ renderFields tl d))
end

mutual
/-- Parse-fuel measure of a document. -/
def jsize : Json → ℕ
  | .null => 1
  | .bool _ => 1
  | .num _ _ => 1
  | .str _ => 1
  | .arr xs => jsizeL xs + 1
  | .obj xs => jsizeO xs + 1
def jsizeL : JList → ℕ
  | .nil => 1
  | .cons x xs => jsize x + jsizeL xs + 1
def jsizeO : JObj → ℕ
  | .onil => 1
  | .ocons _ v tl => jsize v + jsizeO tl + 1
end

def parseHexDigit (c : Char) : Option ℕ :=
  if '0' ≤ c ∧ c ≤ '9' then some (c.toNat - 48)
  else if 'a' ≤ c ∧ c ≤ 'f' then some (c.toNat - 87)
  else if 'A' ≤ c ∧ c ≤ 'F' then some (c.toNat - 55)
  else none

/-- Body of a JSON string up to the closing quote, decoding the escapes
`json.loads` accepts (fuelled by the input length). -/
def parseStrBody : ℕ → List Char → Option (List Char × List Char)
  | 0, _ => none
  | _ + 1, [] => none
  | fuel + 1, c :: rest =>
    if c = '"' then some ([], rest)
    else if c = '\\' then
      match rest with
      | [] => none
      | e :: rest2 =>
        let dec : Option (Char × List Char) :=
          if e = '"' then some ('"', rest2)
          else if e = '\\' then some ('\\', rest2)
          else if e = '/' then some ('/', rest2)
          else if e = 'n' then some ('\n', rest2)
          else if e = 'r' then some ('\r', rest2)
          else if e = 't' then some ('\t', rest2)
          else if e = 'b' then some ('\x08', rest2)
          else if e = 'f' then some ('\x0c', rest2)
          else if e = 'u' then
            match rest2 with
            | h1 :: h2 :: h3 :: h4 :: rest3 =>
              match parseHexDigit h1, parseHexDigit h2, parseHexDigit h3,
                  parseHexDigit h4 with
              | some a, some b, some c2, some d2 =>
                some (Char.ofNat (((a * 16 + b) * 16 + c2) * 16 + d2), rest3)
              | _, _, _, _ => none
            | _ => none
          else none
        match dec with
        | some p => (parseStrBody fuel p.2).map fun q => (p.1 :: q.1, q.2)
        | none => none
    else (parseStrBody fuel rest).map fun q => (c :: q.1, q.2)

/-- A JSON number: digits with an optional fraction (the decimal subset the
renderer emits), returned as mantissa and fraction length. -/
def parseJNumNat (cs : List Char) : Option ((ℕ × ℕ) × List Char) :=
  let d := takeDigitsPrefix cs
  if d.1.isEmpty then none
  else
    match d.2 with
    | '.' :: r2 =>
      if (takeDigitsPrefix r2).1.isEmpty then none
      else
        some ((digitsVal d.1 * 10 ^ (takeDigitsPrefix r2).1.length +
          digitsVal (takeDigitsPrefix r2).1, (takeDigitsPrefix r2).1.length),
          (takeDigitsPrefix r2).2)
    | _ => some ((digitsVal d.1, 0), d.2)

def parseJNum (cs : List Char) : Option ((ℤ × ℕ) × List Char) :=
  match cs with
  | [] => none
  | c :: rest =>
    if c = '-' then (parseJNumNat rest).map fun r => ((-(r.1.1 : ℤ), r.1.2), r.2)
    else (parseJNumNat (c :: rest)).map fun r => (((r.1.1 : ℤ), r.1.2), r.2)

/-- Does the object already have this key (Python dict membership). -/
def hasKey : JObj → List Char → Bool
  | .onil, _ => false
  | .ocons k' _ tl, k => k' = k || hasKey tl k

/-- Overwrite the value at an existing key, keeping its position. -/
def setKey : JObj → List Char → Json → JObj
  | .onil, _, _ => .onil
  | .ocons k' v' tl, k, v =>
    if k' = k then .ocons k' v tl else .ocons k' v' (setKey tl k v)

def appendField : JObj → List Char → Json → JObj
  | .onil, k, v => .ocons k v .onil
  | .ocons k' v' tl, k, v => .ocons k' v' (appendField tl k v)

/-- Python-dict construction from parsed pairs: first occurrence fixes the
position, a repeated key overwrites the value (`json.loads` semantics). -/
def dedupGo : JObj → JObj → JObj
  | acc, .onil => acc
  | acc, .ocons k v tl =>
    if hasKey acc k then dedupGo (setKey acc k v) tl
    else dedupGo (appendField acc k v) tl

/-- What a single parser step is asked to produce. -/
inductive PMode where
  | val
  | items
  | fields
deriving DecidableEq

/-- A parser step result. -/
inductive PRes where
  | val (j : Json)
  | items (xs : JList)
  | fields (xs : JObj)
deriving DecidableEq

/-- `json.loads` on the decimal-literal subset, as one fuelled recursion:
mode `val` parses one value, `items` the rest of an array
(`(\s* ',' value)* \s* ']'`), `fields` the rest of an object. -/
def parseGo : ℕ → PMode → List Char → Option (PRes × List Char)
  | 0, _, _ => none
  | fuel + 1, .val, cs =>
    match skipWs cs with
    | [] => none
    | c :: cs2 =>
      match c, cs2 with
      | 'n', 'u' :: 'l' :: 'l' :: rest => some (.val .null, rest)
      | 't', 'r' :: 'u' :: 'e' :: rest => some (.val (.bool true), rest)
      | 'f', 'a' :: 'l' :: 's' :: 'e' :: rest => some (.val (.bool false), rest)
      | '"', rest =>
        (parseStrBody (rest.length + 1) rest).map fun p => (.val (.str p.1), p.2)
      | '[', rest =>
        if (skipWs rest).headD ' ' = ']' then
          some (.val (.arr .nil), (skipWs rest).tail)
        else
          match parseGo fuel .val rest with
          | some (.val v, r1) =>
            match parseGo fuel .items r1 with
            | some (.items vs, r2) => some (.val (.arr (.cons v vs)), r2)
            | _ => none
          | _ => none
      | '{', rest =>
        if (skipWs rest).headD ' ' = '}' then
          some (.val (.obj .onil), (skipWs rest).tail)
        else
          match skipWs rest with
          | '"' :: r1 =>
            match parseStrBody (r1.length + 1) r1 with
            | none => none
            | some (k, r2) =>
              match skipWs r2 with
              | ':' :: r3 =>
                match parseGo fuel .val r3 with
                | some (.val v, r4) =>
                  match parseGo fuel .fields r4 with
                  | some (.fields tl, r5) =>
                    some (.val (.obj (dedupGo .onil (.ocons k v tl))), r5)
                  | _ => none
                | _ => none
              | _ => none
          | _ => none
      | _, _ => (parseJNum (c :: cs2)).map fun p => (.val (.num p.1.1 p.1.2), p.2)
  | fuel + 1, .items, cs =>
    match skipWs cs with
    | ',' :: rest =>
      match parseGo fuel .val rest with
      | some (.val v, r1) =>
        match parseGo fuel .items r1 with
        | some (.items vs, r2) => some (.items (.cons v vs), r2)
        | _ => none
      | _ => none
    | ']' :: rest => some (.items .nil, rest)
    | _ => none
  | fuel + 1, .fields, cs =>
    match skipWs cs with
    | ',' :: rest =>
      match skipWs rest with
      | '"' :: r1 =>
        match parseStrBody (r1.length + 1) r1 with
        | none => none
        | some (k, r2) =>
          match skipWs r2 with
          | ':' :: r3 =>
            match parseGo fuel .val r3 with
            | some (.val v, r4) =>
              match parseGo fuel .fields r4 with
              | some (.fields tl, r5) => some (.fields (.ocons k v tl), r5)
              | _ => none
            | _ => none
          | _ => none
      | _ => none
    | '}' :: rest => some (.fields .onil, rest)
    | _ => none

/-- `json.loads` on a whole document: one value and trailing whitespace. -/
def parseJson (cs : List Char) : Option Json :=
  match parseGo (cs.length + 1) .val cs with
  | some (.val v, rest) => if (skipWs rest).isEmpty then some v else none
  | _ => none

mutual
/-- Well-formed documents: every object's keys are distinct (Python dicts
cannot hold duplicates). -/
def jsonWF : Json → Bool
  | .null => true
  | .bool _ => true
  | .num _ _ => true
  | .str _ => true
  | .arr xs => listWF xs
  | .obj xs => keysNodup xs && objWF xs
def listWF : JList → Bool
  | .nil => true
  | .cons x xs => jsonWF x && listWF xs
def objWF : JObj → Bool
  | .onil => true
  | .ocons _ v tl => jsonWF v && objWF tl
def keysNodup : JObj → Bool
  | .onil => true
  | .ocons k _ tl => !hasKey tl k && keysNodup tl
end

/-- The two files the state store touches: `state.json` and its temp file. -/
structure FSModel where
  state_file : Option (List Char)
  tmp_file : Option (List Char)
deriving DecidableEq

/-- main.py `save_state`: serialize with
`json.dumps(st, ensure_ascii=False, indent=2)`, write the temp file, rename
it over the state file. -/
def save_state (fs : FSModel) (st : Json) : FSModel :=
  let content := renderJ st 0
  let fs1 : FSModel := { fs with tmp_file := some content }
  { state_file := fs1.tmp_file, tmp_file := none }

/-- main.py `load_state`'s default when the file is missing or unparsable:
`{"last_id": None, "trades_today": 0, "day": None, "open_orders": {}}`. -/
def default_state : Json :=
  .obj (.ocons "last_id".data .null (.ocons "trades_today".data (.num 0 0)
    (.ocons "day".data .null (.ocons "open_orders".data (.obj .onil) .onil))))

/-- main.py `load_state`: parse the state file when it exists, defaulting on
absence or any parse error. -/
def load_state (fs : FSModel) : Json :=
  match fs.state_file with
  | some txt => (parseJson txt).getD default_state
  | none => default_state

theorem skipWs_cons_ws {c : Char} (h : c.isWhitespace = true) (cs : List Char) :
    skipWs (c :: cs) = skipWs cs := by
  rw [skipWs, if_pos h]

theorem skipWs_cons_not_ws {c : Char} (h : c.isWhitespace = false)
    (cs : List Char) : skipWs (c :: cs) = c :: cs := by
  rw [skipWs, if_neg (by simp [h])]

theorem skipWs_pad (n : ℕ) (cs : List Char) : skipWs (pad n ++ cs) = skipWs cs := by
  induction n with
  | zero => rfl
  | succ k ih =>
    rw [pad, List.replicate_succ, List.cons_append, skipWs_cons_ws (by decide)]
    exact ih

theorem skipWs_nl_pad (n : ℕ) (cs : List Char) :
    skipWs ('\n' :: (pad n ++ cs)) = skipWs cs := by
  rw [skipWs_cons_ws (by decide), skipWs_pad]

/-- Specification version of the digit renderer (no accumulator). -/
def digitsW (n : ℕ) : List Char :=
  if n = 0 then []
  else digitsW (n / 10) ++ [Char.ofNat (48 + n % 10)]
termination_by n
decreasing_by exact Nat.div_lt_self (Nat.pos_of_ne_zero (by assumption)) (by norm_num)

theorem natCharsGo_spec :
    ∀ fuel n acc, n ≤ fuel → natCharsGo fuel n acc = digitsW n ++ acc := by
  intro fuel
  induction fuel with
  | zero =>
    intro n acc h
    interval_cases n
    rw [natCharsGo, digitsW]
    simp
  | succ f ih =>
    intro n acc h
    rw [natCharsGo]
    by_cases hn : n = 0
    · rw [if_pos hn, hn, digitsW]
      simp
    · rw [if_neg hn, ih _ _ (by
        have := Nat.div_lt_self (Nat.pos_of_ne_zero hn) (show 1 < 10 by norm_num)
        omega)]
      conv_rhs => rw [digitsW, if_neg hn]
      simp

theorem natChars_eq (n : ℕ) : natChars n = if n = 0 then ['0'] else digitsW n := by
  rw [natChars]
  by_cases hn : n = 0
  · rw [if_pos hn, if_pos hn]
  · rw [if_neg hn, if_neg hn, natCharsGo_spec n n [] le_rfl]
    simp

theorem digit_char_isDigit {r : ℕ} (h : r < 10) :
    (Char.ofNat (48 + r)).isDigit = true := by
  interval_cases r <;> decide

theorem digit_char_toNat {r : ℕ} (h : r < 10) :
    (Char.ofNat (48 + r)).toNat = 48 + r := by
  interval_cases r <;> decide

theorem digitsW_digits (n : ℕ) : ∀ c ∈ digitsW n, c.isDigit = true := by
  induction n using Nat.strong_induction_on with
  | _ n ih =>
    intro c hc
    rw [digitsW] at hc
    by_cases hn : n = 0
    · rw [if_pos hn] at hc
      cases hc
    · rw [if_neg hn] at hc
      rcases List.mem_append.mp hc with h | h
      · exact ih _ (Nat.div_lt_self (Nat.pos_of_ne_zero hn) (by norm_num)) c h
      · rcases List.mem_singleton.mp h with rfl
        exact digit_char_isDigit (Nat.mod_lt _ (by norm_num))

theorem natChars_digits (n : ℕ) : ∀ c ∈ natChars n, c.isDigit = true := by
  rw [natChars_eq]
  by_cases hn : n = 0
  · rw [if_pos hn]
    intro c hc
    rcases List.mem_singleton.mp hc with rfl
    decide
  · rw [if_neg hn]
    exact digitsW_digits n

theorem digitsVal_append_one (xs : List Char) (c : Char) :
    digitsVal (xs ++ [c]) = 10 * digitsVal xs + (c.toNat - 48) := by
  rw [digitsVal, digitsVal, List.foldl_append]
  simp [Nat.mul_comm]

theorem digitsVal_digitsW (n : ℕ) : digitsVal (digitsW n) = n := by
  induction n using Nat.strong_induction_on with
  | _ n ih =>
    rw [digitsW]
    by_cases hn : n = 0
    · rw [if_pos hn, hn]
      rfl
    · rw [if_neg hn, digitsVal_append_one,
        ih _ (Nat.div_lt_self (Nat.pos_of_ne_zero hn) (by norm_num)),
        digit_char_toNat (Nat.mod_lt _ (by norm_num))]
      omega

theorem digitsVal_natChars (n : ℕ) : digitsVal (natChars n) = n := by
  rw [natChars_eq]
  by_cases hn : n = 0
  · rw [if_pos hn, hn]
    rfl
  · rw [if_neg hn]
    exact digitsVal_digitsW n

theorem natChars_ne_nil (n : ℕ) : natChars n ≠ [] := by
  rw [natChars_eq]
  by_cases hn : n = 0
  · rw [if_pos hn]
    simp
  · rw [if_neg hn, digitsW, if_neg hn]
    simp

theorem digitsW_len {n e : ℕ} (h : n < 10 ^ e) : (digitsW n).length ≤ e := by
  induction n using Nat.strong_induction_on generalizing e with
  | _ n ih =>
    rw [digitsW]
    by_cases hn : n = 0
    · simp [hn]
    · rw [if_neg hn]
      rcases e with _ | e1
    -- e = 0 impossible: n < 1 with n ≠ 0
      · omega
      · have hdiv : n / 10 < 10 ^ e1 := by
          rw [Nat.div_lt_iff_lt_mul (by norm_num)]
          calc n < 10 ^ (e1 + 1) := h
          _ = 10 ^ e1 * 10 := by ring
        have := ih _ (Nat.div_lt_self (Nat.pos_of_ne_zero hn) (by norm_num)) hdiv
        simp only [List.length_append, List.length_singleton]
        omega

theorem natChars_len {n e : ℕ} (h : n < 10 ^ e) (he : 0 < e) :
    (natChars n).length ≤ e := by
  rw [natChars_eq]
  by_cases hn : n = 0
  · simp [hn]
    omega
  · rw [if_neg hn]
    exact digitsW_len h

/-- The character after a rendered number must not extend it. -/
def numDelim : List Char → Bool
  | [] => true
  | c :: _ => !c.isDigit && !(c = '.')

/-- No digit at the head (the digit scan stops here). -/
def noDigitHead : List Char → Bool
  | [] => true
  | c :: _ => !c.isDigit

theorem noDigitHead_of_numDelim {cs : List Char} (h : numDelim cs = true) :
    noDigitHead cs = true := by
  cases cs with
  | nil => rfl
  | cons c r =>
    simp only [numDelim, Bool.and_eq_true] at h
    simp [noDigitHead, h.1]

theorem takeDigitsPrefix_stop {cs : List Char} (h : noDigitHead cs = true) :
    takeDigitsPrefix cs = ([], cs) := by
  cases cs with
  | nil => rfl
  | cons c r =>
    simp only [noDigitHead, Bool.not_eq_true'] at h
    rw [takeDigitsPrefix, if_neg (by simp [h])]

theorem takeDigitsPrefix_append {ds rest : List Char}
    (hds : ∀ c ∈ ds, c.isDigit = true)
    (hrest : takeDigitsPrefix rest = ([], rest)) :
    takeDigitsPrefix (ds ++ rest) = (ds, rest) := by
  induction ds with
  | nil => simpa using hrest
  | cons c tl ih =>
    rw [List.cons_append, takeDigitsPrefix,
      if_pos (hds c (List.mem_cons_self c tl)),
      ih (fun c hc => hds c (List.mem_cons_of_mem _ hc))]

theorem zeroPad_digits (f e : ℕ) : ∀ c ∈ zeroPad f e, c.isDigit = true := by
  intro c hc
  rw [zeroPad] at hc
  rcases List.mem_append.mp hc with h | h
  · rcases List.eq_of_mem_replicate h with rfl
    decide
  · exact natChars_digits f c h

theorem zeroPad_length {f e : ℕ} (h : f < 10 ^ e) (he : 0 < e) :
    (zeroPad f e).length = e := by
  have := natChars_len h he
  rw [zeroPad]
  simp only [List.length_append, List.length_replicate]
  omega

theorem digitsVal_replicate_zero (k : ℕ) (ds : List Char) :
    digitsVal (List.replicate k '0' ++ ds) = digitsVal ds := by
  induction k with
  | zero => simp
  | succ n ih =>
    rw [List.replicate_succ, List.cons_append, digitsVal, List.foldl_cons]
    exact ih

theorem digitsVal_zeroPad (f e : ℕ) : digitsVal (zeroPad f e) = f := by
  rw [zeroPad, digitsVal_replicate_zero, digitsVal_natChars]

theorem parseJNumNat_int (a : ℕ) {rest : List Char} (h : numDelim rest = true) :
    parseJNumNat (natChars a ++ rest) = some ((a, 0), rest) := by
  rw [parseJNumNat,
    takeDigitsPrefix_append (natChars_digits a)
      (takeDigitsPrefix_stop (noDigitHead_of_numDelim h))]
  simp only [List.isEmpty_eq_true]
  rw [if_neg (natChars_ne_nil a)]
  cases rest with
  | nil => simp [digitsVal_natChars]
  | cons c r =>
    simp only [numDelim, Bool.and_eq_true, Bool.not_eq_true'] at h
    have hc : c ≠ '.' := by
      intro he
      rw [he] at h
      simp at h
    split
    · rename_i heq
      rw [List.cons.injEq] at heq
      exact absurd heq.1 hc
    · simp [digitsVal_natChars]

theorem parseJNumNat_frac (D F e : ℕ) {rest : List Char} (hF : F < 10 ^ e)
    (he : 0 < e) (h : noDigitHead rest = true) :
    parseJNumNat (natChars D ++ '.' :: (zeroPad F e ++ rest)) =
      some ((D * 10 ^ e + F, e), rest) := by
  have hz : takeDigitsPrefix (zeroPad F e ++ rest) = (zeroPad F e, rest) :=
    takeDigitsPrefix_append (zeroPad_digits F e) (takeDigitsPrefix_stop h)
  rw [parseJNumNat,
    takeDigitsPrefix_append (natChars_digits D)
      (takeDigitsPrefix_stop (by rfl))]
  simp only [List.isEmpty_eq_true]
  rw [if_neg (natChars_ne_nil D)]
  have hnz : zeroPad F e ≠ [] := by
    intro hnil
    have := zeroPad_length hF he
    rw [hnil] at this
    simp at this
    omega
  simp only [hz]
  rw [if_neg (by simpa using hnz), digitsVal_natChars, digitsVal_zeroPad,
    zeroPad_length hF he]

theorem isDigit_ne_dash {c : Char} (h : c.isDigit = true) : ¬c = '-' := by
  intro he
  rw [he] at h
  exact absurd h (by decide)

theorem parseJNumNat_core (X e : ℕ) {rest : List Char} (h : numDelim rest = true) :
    parseJNumNat ((if e = 0 then natChars X
      else natChars (X / 10 ^ e) ++ '.' :: zeroPad (X % 10 ^ e) e) ++ rest) =
      some ((X, e), rest) := by
  by_cases he : e = 0
  · rw [if_pos he, he, parseJNumNat_int X h]
  · rw [if_neg he, List.append_assoc, List.cons_append,
      parseJNumNat_frac (X / 10 ^ e) (X % 10 ^ e) e
        (Nat.mod_lt _ (Nat.pos_pow_of_pos e (by norm_num)))
        (Nat.pos_of_ne_zero he) (noDigitHead_of_numDelim h)]
    rw [Nat.mul_comm, Nat.div_add_mod]

theorem core_head_digit (X e : ℕ) : ∃ c cs, (if e = 0 then natChars X
    else natChars (X / 10 ^ e) ++ '.' :: zeroPad (X % 10 ^ e) e) = c :: cs ∧
    c.isDigit = true := by
  by_cases he : e = 0
  · rw [if_pos he]
    cases hnc : natChars X with
    | nil => exact absurd hnc (natChars_ne_nil X)
    | cons c cs =>
      exact ⟨c, cs, rfl, natChars_digits X c (hnc ▸ List.mem_cons_self _ _)⟩
  · rw [if_neg he]
    cases hnc : natChars (X / 10 ^ e) with
    | nil => exact absurd hnc (natChars_ne_nil _)
    | cons c cs =>
      exact ⟨c, cs ++ '.' :: zeroPad (X % 10 ^ e) e, rfl,
        natChars_digits _ c (hnc ▸ List.mem_cons_self _ _)⟩

theorem parseJNum_renderNum (m : ℤ) (e : ℕ) {rest : List Char}
    (h : numDelim rest = true) :
    parseJNum (renderNum m e ++ rest) = some ((m, e), rest) := by
  rw [renderNum]
  by_cases hm : m < 0
  · simp only [if_pos hm, List.cons_append]
    rw [parseJNum, if_pos rfl, parseJNumNat_core m.natAbs e h]
    simp only [Option.map_some']
    have h2 : -((m.natAbs : ℤ)) = m := by omega
    rw [h2]
  · simp only [if_neg hm]
    obtain ⟨c, cs, hc, hd⟩ := core_head_digit m.natAbs e
    rw [hc, List.cons_append, parseJNum, if_neg (isDigit_ne_dash hd),
      ← List.cons_append, ← hc, parseJNumNat_core m.natAbs e h]
    simp only [Option.map_some']
    have h2 : ((m.natAbs : ℤ)) = m := by omega
    rw [h2]

theorem parseHexDigit_hexDigitChar {x : ℕ} (h : x < 16) :
    parseHexDigit (hexDigitChar x) = some x := by
  interval_cases x <;> decide

theorem escapeStr_cons (c : Char) (s : List Char) :
    escapeStr (c :: s) = escapeChar c ++ escapeStr s := rfl

theorem parseStrBody_quote (f : ℕ) (r : List Char) :
    parseStrBody (f + 1) ('"' :: r) = some ([], r) := rfl

theorem parseStrBody_escQuote (f : ℕ) (r : List Char) :
    parseStrBody (f + 1) ('\\' :: '"' :: r) =
      (parseStrBody f r).map fun q => ('"' :: q.1, q.2) := rfl

theorem parseStrBody_escBack (f : ℕ) (r : List Char) :
    parseStrBody (f + 1) ('\\' :: '\\' :: r) =
      (parseStrBody f r).map fun q => ('\\' :: q.1, q.2) := rfl

theorem parseStrBody_escN (f : ℕ) (r : List Char) :
    parseStrBody (f + 1) ('\\' :: 'n' :: r) =
      (parseStrBody f r).map fun q => ('\n' :: q.1, q.2) := rfl

theorem parseStrBody_escR (f : ℕ) (r : List Char) :
    parseStrBody (f + 1) ('\\' :: 'r' :: r) =
      (parseStrBody f r).map fun q => ('\r' :: q.1, q.2) := rfl

theorem parseStrBody_escT (f : ℕ) (r : List Char) :
    parseStrBody (f + 1) ('\\' :: 't' :: r) =
      (parseStrBody f r).map fun q => ('\t' :: q.1, q.2) := rfl

theorem parseStrBody_escB (f : ℕ) (r : List Char) :
    parseStrBody (f + 1) ('\\' :: 'b' :: r) =
      (parseStrBody f r).map fun q => ('\x08' :: q.1, q.2) := rfl

theorem parseStrBody_escF (f : ℕ) (r : List Char) :
    parseStrBody (f + 1) ('\\' :: 'f' :: r) =
      (parseStrBody f r).map fun q => ('\x0c' :: q.1, q.2) := rfl

theorem parseStrBody_other {c : Char} (h1 : ¬c = '"') (h2 : ¬c = '\\')
    (f : ℕ) (r : List Char) :
    parseStrBody (f + 1) (c :: r) =
      (parseStrBody f r).map fun q => (c :: q.1, q.2) := by
  conv_lhs => rw [parseStrBody.eq_def]
  simp only [if_neg h1, if_neg h2]

theorem parseStrBody_u (f : ℕ) (c1 c2 : Char) (x1 x2 : ℕ)
    (hx1 : parseHexDigit c1 = some x1) (hx2 : parseHexDigit c2 = some x2)
    (r : List Char) :
    parseStrBody (f + 1) ('\\' :: 'u' :: '0' :: '0' :: c1 :: c2 :: r) =
      (parseStrBody f r).map fun q =>
        (Char.ofNat (((0 * 16 + 0) * 16 + x1) * 16 + x2) :: q.1, q.2) := by
  conv_lhs => rw [parseStrBody.eq_def]
  simp only [reduceIte]
  rw [show parseHexDigit '0' = some 0 from rfl, hx1, hx2]
  rfl

theorem parseStrBody_escapeStr (s : List Char) : ∀ fuel rest,
    (escapeStr s).length + 1 ≤ fuel →
    parseStrBody fuel (escapeStr s ++ '"' :: rest) = some (s, rest) := by
  induction s with
  | nil =>
    intro fuel rest h
    obtain ⟨f, rfl⟩ : ∃ f, fuel = f + 1 := ⟨fuel - 1, by omega⟩
    rw [show escapeStr [] = [] from rfl, List.nil_append, parseStrBody_quote]
  | cons c tl ih =>
    intro fuel rest h
    rw [escapeStr_cons] at h ⊢
    by_cases h1 : c = '"'
    · subst h1
      rw [show escapeChar '"' = ['\\', '"'] from rfl] at h ⊢
      obtain ⟨f, rfl⟩ : ∃ f, fuel = f + 1 := ⟨fuel - 1, by omega⟩
      rw [show (['\\', '"'] ++ escapeStr tl) ++ '"' :: rest =
        '\\' :: '"' :: (escapeStr tl ++ '"' :: rest) from rfl,
        parseStrBody_escQuote, ih f rest (by simp at h; omega)]
      rfl
    by_cases h2 : c = '\\'
    · subst h2
      rw [show escapeChar '\\' = ['\\', '\\'] from rfl] at h ⊢
      obtain ⟨f, rfl⟩ : ∃ f, fuel = f + 1 := ⟨fuel - 1, by omega⟩
      rw [show (['\\', '\\'] ++ escapeStr tl) ++ '"' :: rest =
        '\\' :: '\\' :: (escapeStr tl ++ '"' :: rest) from rfl,
        parseStrBody_escBack, ih f rest (by simp at h; omega)]
      rfl
    by_cases h3 : c = '\n'
    · subst h3
      rw [show escapeChar '\n' = ['\\', 'n'] from rfl] at h ⊢
      obtain ⟨f, rfl⟩ : ∃ f, fuel = f + 1 := ⟨fuel - 1, by omega⟩
      rw [show (['\\', 'n'] ++ escapeStr tl) ++ '"' :: rest =
        '\\' :: 'n' :: (escapeStr tl ++ '"' :: rest) from rfl,
        parseStrBody_escN, ih f rest (by simp at h; omega)]
      rfl
    by_cases h4 : c = '\r'
    · subst h4
      rw [show escapeChar '\r' = ['\\', 'r'] from rfl] at h ⊢
      obtain ⟨f, rfl⟩ : ∃ f, fuel = f + 1 := ⟨fuel - 1, by omega⟩
      rw [show (['\\', 'r'] ++ escapeStr tl) ++ '"' :: rest =
        '\\' :: 'r' :: (escapeStr tl ++ '"' :: rest) from rfl,
        parseStrBody_escR, ih f rest (by simp at h; omega)]
      rfl
    by_cases h5 : c = '\t'
    · subst h5
      rw [show escapeChar '\t' = ['\\', 't'] from rfl] at h ⊢
      obtain ⟨f, rfl⟩ : ∃ f, fuel = f + 1 := ⟨fuel - 1, by omega⟩
      rw [show (['\\', 't'] ++ escapeStr tl) ++ '"' :: rest =
        '\\' :: 't' :: (escapeStr tl ++ '"' :: rest) from rfl,
        parseStrBody_escT, ih f rest (by simp at h; omega)]
      rfl
    by_cases h6 : c = '\x08'
    · subst h6
      rw [show escapeChar '\x08' = ['\\', 'b'] from rfl] at h ⊢
      obtain ⟨f, rfl⟩ : ∃ f, fuel = f + 1 := ⟨fuel - 1, by omega⟩
      rw [show (['\\', 'b'] ++ escapeStr tl) ++ '"' :: rest =
        '\\' :: 'b' :: (escapeStr tl ++ '"' :: rest) from rfl,
        parseStrBody_escB, ih f rest (by simp at h; omega)]
      rfl
    by_cases h7 : c = '\x0c'
    · subst h7
      rw [show escapeChar '\x0c' = ['\\', 'f'] from rfl] at h ⊢
      obtain ⟨f, rfl⟩ : ∃ f, fuel = f + 1 := ⟨fuel - 1, by omega⟩
      rw [show (['\\', 'f'] ++ escapeStr tl) ++ '"' :: rest =
        '\\' :: 'f' :: (escapeStr tl ++ '"' :: rest) from rfl,
        parseStrBody_escF, ih f rest (by simp at h; omega)]
      rfl
    by_cases h8 : c.toNat < 32
    · rw [show escapeChar c = ['\\', 'u', '0', '0', hexDigitChar (c.toNat / 16),
        hexDigitChar (c.toNat % 16)] from by
          rw [escapeChar, if_neg h1, if_neg h2, if_neg h3, if_neg h4, if_neg h5,
            if_neg h6, if_neg h7, if_pos h8]] at h ⊢
      obtain ⟨f, rfl⟩ : ∃ f, fuel = f + 1 := ⟨fuel - 1, by omega⟩
      rw [show (['\\', 'u', '0', '0', hexDigitChar (c.toNat / 16),
        hexDigitChar (c.toNat % 16)] ++ escapeStr tl) ++ '"' :: rest =
        '\\' :: 'u' :: '0' :: '0' :: hexDigitChar (c.toNat / 16) ::
        hexDigitChar (c.toNat % 16) :: (escapeStr tl ++ '"' :: rest) from rfl,
        parseStrBody_u f (hexDigitChar (c.toNat / 16))
          (hexDigitChar (c.toNat % 16)) (c.toNat / 16) (c.toNat % 16)
          (parseHexDigit_hexDigitChar (by omega))
          (parseHexDigit_hexDigitChar (by omega)),
        ih f rest (by simp at h; omega),
        show ((0 * 16 + 0) * 16 + c.toNat / 16) * 16 + c.toNat % 16 = c.toNat
          from by omega, Char.ofNat_toNat]
      rfl
    · rw [show escapeChar c = [c] from by
        rw [escapeChar, if_neg h1, if_neg h2, if_neg h3, if_neg h4, if_neg h5,
          if_neg h6, if_neg h7, if_neg h8]] at h ⊢
      obtain ⟨f, rfl⟩ : ∃ f, fuel = f + 1 := ⟨fuel - 1, by omega⟩
      rw [show ([c] ++ escapeStr tl) ++ '"' :: rest =
        c :: (escapeStr tl ++ '"' :: rest) from rfl,
        parseStrBody_other h1 h2, ih f rest (by simp at h; omega)]
      rfl

/-- Concatenation of field lists. -/
def jappend : JObj → JObj → JObj
  | .onil, ys => ys
  | .ocons k v tl, ys => .ocons k v (jappend tl ys)

theorem jappend_onil : ∀ acc : JObj, jappend acc .onil = acc
  | .onil => rfl
  | .ocons k v tl => by rw [jappend, jappend_onil tl]

theorem jappend_appendField : ∀ (acc : JObj) (k : List Char) (v : Json)
    (tl : JObj), jappend (appendField acc k v) tl = jappend acc (.ocons k v tl)
  | .onil, _, _, _ => rfl
  | .ocons k1 v1 t, k, v, tl => by
    rw [appendField, jappend, jappend_appendField t, jappend]

theorem hasKey_appendField : ∀ (acc : JObj) (k : List Char) (v : Json)
    (k2 : List Char),
    hasKey (appendField acc k v) k2 = (hasKey acc k2 || decide (k = k2))
  | .onil, k, v, k2 => by simp [appendField, hasKey]
  | .ocons k1 v1 t, k, v, k2 => by
    simp [appendField, hasKey, hasKey_appendField t, Bool.or_assoc]

theorem dedupGo_nodup : ∀ (xs acc : JObj), keysNodup xs = true →
    (∀ k2, hasKey xs k2 = true → hasKey acc k2 = false) →
    dedupGo acc xs = jappend acc xs
  | .onil, acc, _, _ => (jappend_onil acc).symm
  | .ocons k v tl, acc, hnd, hdis => by
    rw [keysNodup, Bool.and_eq_true, Bool.not_eq_true'] at hnd
    have hacc : hasKey acc k = false := hdis k (by simp [hasKey])
    rw [dedupGo, if_neg (by rw [hacc]; simp),
      dedupGo_nodup tl (appendField acc k v) hnd.2 (fun k2 hk2 => by
        rw [hasKey_appendField]
        have h1 : hasKey acc k2 = false := hdis k2 (by simp [hasKey, hk2])
        have h2 : ¬k = k2 := by
          intro he
          subst he
          rw [hk2] at hnd
          exact absurd hnd.1 (by simp)
        simp [h1, h2]),
      jappend_appendField]

theorem dedupGo_onil_id (xs : JObj) (h : keysNodup xs = true) :
    dedupGo .onil xs = xs :=
  dedupGo_nodup xs .onil h (fun _ _ => rfl)

theorem skipWs_allWs_append {pre : List Char}
    (hpre : ∀ c ∈ pre, c.isWhitespace = true) (cs : List Char) :
    skipWs (pre ++ cs) = skipWs cs := by
  induction pre with
  | nil => rfl
  | cons c p ih =>
    rw [List.cons_append, skipWs_cons_ws (hpre c (List.mem_cons_self c p)),
      ih (fun c hc => hpre c (List.mem_cons_of_mem _ hc))]

theorem parseGo_val_congr (f : ℕ) {cs1 cs2 : List Char}
    (h : skipWs cs1 = skipWs cs2) :
    parseGo (f + 1) .val cs1 = parseGo (f + 1) .val cs2 := by
  rw [parseGo, parseGo, h]

theorem parseGo_val_pre (f : ℕ) {pre : List Char} (cs : List Char)
    (hpre : ∀ c ∈ pre, c.isWhitespace = true) :
    parseGo (f + 1) .val (pre ++ cs) = parseGo (f + 1) .val cs :=
  parseGo_val_congr f (skipWs_allWs_append hpre cs)

theorem parseGo_val_null (f : ℕ) (rest : List Char) :
    parseGo (f + 1) .val ('n' :: 'u' :: 'l' :: 'l' :: rest) =
      some (.val .null, rest) := rfl

theorem parseGo_val_true (f : ℕ) (rest : List Char) :
    parseGo (f + 1) .val ('t' :: 'r' :: 'u' :: 'e' :: rest) =
      some (.val (.bool true), rest) := rfl

theorem parseGo_val_false (f : ℕ) (rest : List Char) :
    parseGo (f + 1) .val ('f' :: 'a' :: 'l' :: 's' :: 'e' :: rest) =
      some (.val (.bool false), rest) := rfl

theorem parseGo_val_str (f : ℕ) (rest : List Char) :
    parseGo (f + 1) .val ('"' :: rest) =
      (parseStrBody (rest.length + 1) rest).map
        fun p => (.val (.str p.1), p.2) := rfl

theorem parseGo_val_dash (f : ℕ) (rest : List Char) :
    parseGo (f + 1) .val ('-' :: rest) =
      (parseJNum ('-' :: rest)).map
        fun p => (.val (.num p.1.1 p.1.2), p.2) := rfl

theorem digit_char_cases {c : Char} (h : c.isDigit = true) :
    c = '0' ∨ c = '1' ∨ c = '2' ∨ c = '3' ∨ c = '4' ∨ c = '5' ∨ c = '6' ∨
    c = '7' ∨ c = '8' ∨ c = '9' := by
  have hb : 48 ≤ c.toNat ∧ c.toNat ≤ 57 := by
    rw [Char.isDigit] at h
    simp only [Bool.and_eq_true, decide_eq_true_eq] at h
    exact ⟨h.1, h.2⟩
  have he : c = Char.ofNat c.toNat := (Char.ofNat_toNat c).symm
  have hd : c.toNat = 48 ∨ c.toNat = 49 ∨ c.toNat = 50 ∨ c.toNat = 51 ∨
      c.toNat = 52 ∨ c.toNat = 53 ∨ c.toNat = 54 ∨ c.toNat = 55 ∨
      c.toNat = 56 ∨ c.toNat = 57 := by omega
  rcases hd with h | h | h | h | h | h | h | h | h | h <;>
    rw [he, h] <;> decide

theorem parseGo_val_digit {c : Char} (hc : c.isDigit = true) (f : ℕ)
    (rest : List Char) :
    parseGo (f + 1) .val (c :: rest) =
      (parseJNum (c :: rest)).map
        fun p => (.val (.num p.1.1 p.1.2), p.2) := by
  rcases digit_char_cases hc with rfl | rfl | rfl | rfl | rfl | rfl | rfl |
    rfl | rfl | rfl <;> rfl

theorem parseGo_val_lbrack (f : ℕ) (rest : List Char) :
    parseGo (f + 1) .val ('[' :: rest) =
      if (skipWs rest).headD ' ' = ']' then
        some (.val (.arr .nil), (skipWs rest).tail)
      else
        match parseGo f .val rest with
        | some (.val v, r1) =>
          match parseGo f .items r1 with
          | some (.items vs, r2) => some (.val (.arr (.cons v vs)), r2)
          | _ => none
        | _ => none := rfl

theorem parseGo_val_lbrace (f : ℕ) (rest : List Char) :
    parseGo (f + 1) .val ('{' :: rest) =
      if (skipWs rest).headD ' ' = '}' then
        some (.val (.obj .onil), (skipWs rest).tail)
      else
        match skipWs rest with
        | '"' :: r1 =>
          match parseStrBody (r1.length + 1) r1 with
          | none => none
          | some (k, r2) =>
            match skipWs r2 with
            | ':' :: r3 =>
              match parseGo f .val r3 with
              | some (.val v, r4) =>
                match parseGo f .fields r4 with
                | some (.fields tl, r5) =>
                  some (.val (.obj (dedupGo .onil (.ocons k v tl))), r5)
                | _ => none
              | _ => none
            | _ => none
        | _ => none := rfl

theorem parseGo_val_arr_nil (f : ℕ) {rest rest2 : List Char}
    (hsk : skipWs rest = ']' :: rest2) :
    parseGo (f + 1) .val ('[' :: rest) = some (.val (.arr .nil), rest2) := by
  rw [parseGo_val_lbrack, hsk]
  rfl

theorem parseGo_val_arr_cons (f : ℕ) {rest : List Char} {c : Char}
    {tl : List Char} (hsk : skipWs rest = c :: tl) (hc : ¬c = ']')
    {v : Json} {r1 : List Char} {vs : JList} {r2 : List Char}
    (h1 : parseGo f .val rest = some (.val v, r1))
    (h2 : parseGo f .items r1 = some (.items vs, r2)) :
    parseGo (f + 1) .val ('[' :: rest) =
      some (.val (.arr (.cons v vs)), r2) := by
  rw [parseGo_val_lbrack, hsk, show (c :: tl).headD ' ' = c from rfl,
    if_neg hc]
  simp only [h1, h2]

theorem parseGo_val_obj_nil (f : ℕ) {rest rest2 : List Char}
    (hsk : skipWs rest = '}' :: rest2) :
    parseGo (f + 1) .val ('{' :: rest) = some (.val (.obj .onil), rest2) := by
  rw [parseGo_val_lbrace, hsk]
  rfl

theorem parseGo_val_obj_cons (f : ℕ) {rest r1 : List Char}
    (hsk : skipWs rest = '"' :: r1) {k r2 : List Char}
    (hk : parseStrBody (r1.length + 1) r1 = some (k, r2)) {r3 : List Char}
    (hcol : skipWs r2 = ':' :: r3) {v : Json} {r4 : List Char}
    (hv : parseGo f .val r3 = some (.val v, r4)) {tl : JObj} {r5 : List Char}
    (htl : parseGo f .fields r4 = some (.fields tl, r5)) :
    parseGo (f + 1) .val ('{' :: rest) =
      some (.val (.obj (dedupGo .onil (.ocons k v tl))), r5) := by
  rw [parseGo_val_lbrace, hsk, show ('"' :: r1).headD ' ' = '"' from rfl,
    if_neg (by decide)]
  simp only [hk, hcol, hv, htl]

theorem parseGo_items_comma (f : ℕ) {cs rest : List Char}
    (hsk : skipWs cs = ',' :: rest) {v : Json} {r1 : List Char} {vs : JList}
    {r2 : List Char} (h1 : parseGo f .val rest = some (.val v, r1))
    (h2 : parseGo f .items r1 = some (.items vs, r2)) :
    parseGo (f + 1) .items cs = some (.items (.cons v vs), r2) := by
  rw [parseGo, hsk]
  simp only [h1, h2]

theorem parseGo_items_close (f : ℕ) {cs rest : List Char}
    (hsk : skipWs cs = ']' :: rest) :
    parseGo (f + 1) .items cs = some (.items .nil, rest) := by
  rw [parseGo, hsk]
  rfl

theorem parseGo_fields_comma (f : ℕ) {cs rest r1 : List Char}
    (hsk : skipWs cs = ',' :: rest) (hq : skipWs rest = '"' :: r1)
    {k r2 : List Char} (hk : parseStrBody (r1.length + 1) r1 = some (k, r2))
    {r3 : List Char} (hcol : skipWs r2 = ':' :: r3) {v : Json}
    {r4 : List Char} (hv : parseGo f .val r3 = some (.val v, r4)) {tl : JObj}
    {r5 : List Char} (htl : parseGo f .fields r4 = some (.fields tl, r5)) :
    parseGo (f + 1) .fields cs = some (.fields (.ocons k v tl), r5) := by
  rw [parseGo, hsk]
  simp only [hq, hk, hcol, hv, htl]

theorem parseGo_fields_close (f : ℕ) {cs rest : List Char}
    (hsk : skipWs cs = '}' :: rest) :
    parseGo (f + 1) .fields cs = some (.fields .onil, rest) := by
  rw [parseGo, hsk]
  rfl

theorem isDigit_not_ws {c : Char} (h : c.isDigit = true) :
    c.isWhitespace = false := by
  rcases digit_char_cases h with rfl | rfl | rfl | rfl | rfl | rfl | rfl |
    rfl | rfl | rfl <;> decide

theorem isDigit_ne_rbrack {c : Char} (h : c.isDigit = true) : ¬c = ']' := by
  rcases digit_char_cases h with rfl | rfl | rfl | rfl | rfl | rfl | rfl |
    rfl | rfl | rfl <;> decide

theorem renderNum_head (m : ℤ) (e : ℕ) : ∃ c cs, renderNum m e = c :: cs ∧
    (c = '-' ∨ c.isDigit = true) := by
  by_cases hm : m < 0
  · refine ⟨'-', if e = 0 then natChars m.natAbs
      else natChars (m.natAbs / 10 ^ e) ++ '.' :: zeroPad (m.natAbs % 10 ^ e) e,
      ?_, Or.inl rfl⟩
    simp only [renderNum]
    rw [if_pos hm]
  · obtain ⟨c, cs, hc, hd⟩ := core_head_digit m.natAbs e
    refine ⟨c, cs, ?_, Or.inr hd⟩
    simp only [renderNum]
    rw [if_neg hm]
    exact hc

theorem renderNum_ne_nil (m : ℤ) (e : ℕ) : renderNum m e ≠ [] := by
  obtain ⟨c, cs, hc, _⟩ := renderNum_head m e
  rw [hc]
  simp

theorem renderJ_head (j : Json) (d : ℕ) : ∃ c cs, renderJ j d = c :: cs ∧
    c.isWhitespace = false ∧ ¬c = ']' := by
  cases j with
  | null => exact ⟨'n', _, rfl, by decide, by decide⟩
  | bool b => cases b with
    | true => exact ⟨'t', _, rfl, by decide, by decide⟩
    | false => exact ⟨'f', _, rfl, by decide, by decide⟩
  | num m e =>
    obtain ⟨c, cs, hc, hd⟩ := renderNum_head m e
    refine ⟨c, cs, hc, ?_, ?_⟩
    · rcases hd with rfl | hd
      · decide
      · exact isDigit_not_ws hd
    · rcases hd with rfl | hd
      · decide
      · exact isDigit_ne_rbrack hd
  | str s => exact ⟨'"', _, rfl, by decide, by decide⟩
  | arr xs => cases xs with
    | nil => exact ⟨'[', _, rfl, by decide, by decide⟩
    | cons x t => exact ⟨'[', _, rfl, by decide, by decide⟩
  | obj xs => cases xs with
    | onil => exact ⟨'{', _, rfl, by decide, by decide⟩
    | ocons k v t => exact ⟨'{', _, rfl, by decide, by decide⟩

theorem numDelim_items (xs : JList) (d : ℕ) (X : List Char) :
    numDelim (renderItems xs d ++ '\n' :: X) = true := by
  cases xs <;> rfl

theorem numDelim_fields (xs : JObj) (d : ℕ) (X : List Char) :
    numDelim (renderFields xs d ++ '\n' :: X) = true := by
  cases xs <;> rfl

theorem allWs_nl_pad (n : ℕ) : ∀ c ∈ '\n' :: pad n, c.isWhitespace = true := by
  intro c hc
  rcases List.mem_cons.mp hc with rfl | hc
  · decide
  · rcases List.eq_of_mem_replicate hc with rfl
    decide

theorem allWs_space : ∀ c ∈ [' '], c.isWhitespace = true := by
  intro c hc
  rcases List.mem_singleton.mp hc with rfl
  decide

mutual
theorem jsize_le_render : ∀ (j : Json) (d : ℕ), jsize j ≤ (renderJ j d).length
  | .null, _ => by simp [jsize, renderJ]
  | .bool true, _ => by simp [jsize, renderJ]
  | .bool false, _ => by simp [jsize, renderJ]
  | .num m e, d => by
    have h : 0 < (renderNum m e).length :=
      List.length_pos.mpr (renderNum_ne_nil m e)
    simpa [jsize, renderJ] using h
  | .str s, _ => by
    simp [jsize, renderJ]
  | .arr .nil, _ => by simp [jsize, jsizeL, renderJ]
  | .arr (.cons x xs), d => by
    have h1 := jsize_le_render x (d + 2)
    have h2 := jsizeL_le_render xs (d + 2)
    simp only [jsize, jsizeL, renderJ, List.length_cons, List.length_append,
      pad, List.length_replicate, List.length_singleton]
    omega
  | .obj .onil, _ => by simp [jsize, jsizeO, renderJ]
  | .obj (.ocons k v tl), d => by
    have h1 := jsize_le_render v (d + 2)
    have h2 := jsizeO_le_render tl (d + 2)
    simp only [jsize, jsizeO, renderJ, List.length_cons, List.length_append,
      pad, List.length_replicate, List.length_singleton]
    omega
theorem jsizeL_le_render : ∀ (xs : JList) (d : ℕ),
    jsizeL xs ≤ (renderItems xs d).length + 1
  | .nil, _ => by simp [jsizeL, renderItems]
  | .cons x xs, d => by
    have h1 := jsize_le_render x d
    have h2 := jsizeL_le_render xs d
    simp only [jsizeL, renderItems, List.length_cons, List.length_append,
      pad, List.length_replicate]
    omega
theorem jsizeO_le_render : ∀ (xs : JObj) (d : ℕ),
    jsizeO xs ≤ (renderFields xs d).length + 1
  | .onil, _ => by simp [jsizeO, renderFields]
  | .ocons k v tl, d => by
    have h1 := jsize_le_render v d
    have h2 := jsizeO_le_render tl d
    simp only [jsizeO, renderFields, List.length_cons, List.length_append,
      pad, List.length_replicate, List.length_singleton]
    omega
end

mutual
/-- The parser reading back exactly what the renderer wrote: one value,
preceded by any whitespace run, followed by a non-number-extending tail. -/
theorem parseGo_renderJ : ∀ (j : Json) (d fuel : ℕ) (pre rest : List Char),
    jsonWF j = true → jsize j ≤ fuel → numDelim rest = true →
    (∀ c ∈ pre, c.isWhitespace = true) →
    parseGo fuel .val (pre ++ (renderJ j d ++ rest)) = some (.val j, rest)
  | .null, d, fuel, pre, rest => fun _ hsz hrest hpre => by
    obtain ⟨f, rfl⟩ : ∃ f, fuel = f + 1 :=
      ⟨fuel - 1, by simp [jsize] at hsz; omega⟩
    rw [parseGo_val_pre f _ hpre,
      show renderJ .null d ++ rest = 'n' :: 'u' :: 'l' :: 'l' :: rest from rfl,
      parseGo_val_null]
  | .bool true, d, fuel, pre, rest => fun _ hsz hrest hpre => by
    obtain ⟨f, rfl⟩ : ∃ f, fuel = f + 1 :=
      ⟨fuel - 1, by simp [jsize] at hsz; omega⟩
    rw [parseGo_val_pre f _ hpre,
      show renderJ (.bool true) d ++ rest =
        't' :: 'r' :: 'u' :: 'e' :: rest from rfl,
      parseGo_val_true]
  | .bool false, d, fuel, pre, rest => fun _ hsz hrest hpre => by
    obtain ⟨f, rfl⟩ : ∃ f, fuel = f + 1 :=
      ⟨fuel - 1, by simp [jsize] at hsz; omega⟩
    rw [parseGo_val_pre f _ hpre,
      show renderJ (.bool false) d ++ rest =
        'f' :: 'a' :: 'l' :: 's' :: 'e' :: rest from rfl,
      parseGo_val_false]
  | .num m e, d, fuel, pre, rest => fun _ hsz hrest hpre => by
    obtain ⟨f, rfl⟩ : ∃ f, fuel = f + 1 :=
      ⟨fuel - 1, by simp [jsize] at hsz; omega⟩
    rw [parseGo_val_pre f _ hpre]
    show parseGo (f + 1) .val (renderNum m e ++ rest) = _
    obtain ⟨c, cs, hc, hd⟩ := renderNum_head m e
    rw [hc, List.cons_append]
    rcases hd with rfl | hd
    · rw [parseGo_val_dash, ← List.cons_append, ← hc,
        parseJNum_renderNum m e hrest]
      rfl
    · rw [parseGo_val_digit hd, ← List.cons_append, ← hc,
        parseJNum_renderNum m e hrest]
      rfl
  | .str s, d, fuel, pre, rest => fun _ hsz hrest hpre => by
    obtain ⟨f, rfl⟩ : ∃ f, fuel = f + 1 :=
      ⟨fuel - 1, by simp [jsize] at hsz; omega⟩
    rw [parseGo_val_pre f _ hpre,
      show renderJ (.str s) d ++ rest =
        '"' :: (escapeStr s ++ ('"' :: rest)) from by
        simp [renderJ, List.append_assoc],
      parseGo_val_str,
      parseStrBody_escapeStr s ((escapeStr s ++ ('"' :: rest)).length + 1)
        rest (by simp [List.length_append])]
    rfl
  | .arr .nil, d, fuel, pre, rest => fun _ hsz hrest hpre => by
    obtain ⟨f, rfl⟩ : ∃ f, fuel = f + 1 :=
      ⟨fuel - 1, by simp [jsize, jsizeL] at hsz; omega⟩
    rw [parseGo_val_pre f _ hpre,
      show renderJ (.arr .nil) d ++ rest = '[' :: (']' :: rest) from rfl,
      parseGo_val_arr_nil f (skipWs_cons_not_ws (by decide) rest)]
  | .arr (.cons x xs), d, fuel, pre, rest => fun hwf hsz hrest hpre => by
    rw [jsonWF, listWF, Bool.and_eq_true] at hwf
    obtain ⟨f, rfl⟩ : ∃ f, fuel = f + 1 :=
      ⟨fuel - 1, by simp [jsize, jsizeL] at hsz; omega⟩
    have hszx : jsize x ≤ f := by simp [jsize, jsizeL] at hsz; omega
    have hszxs : jsizeL xs ≤ f := by simp [jsize, jsizeL] at hsz; omega
    obtain ⟨c, cs0, hcx, hws, hbr⟩ := renderJ_head x (d + 2)
    have h1 : parseGo f .val ('\n' :: (pad (d + 2) ++ (renderJ x (d + 2) ++
        (renderItems xs (d + 2) ++ ('\n' :: (pad d ++ (']' :: rest))))))) =
        some (.val x,
          renderItems xs (d + 2) ++ ('\n' :: (pad d ++ (']' :: rest)))) :=
      parseGo_renderJ x (d + 2) f ('\n' :: pad (d + 2)) _ hwf.1 hszx
        (numDelim_items xs (d + 2) _) (allWs_nl_pad (d + 2))
    have h2 : parseGo f .items
        (renderItems xs (d + 2) ++ ('\n' :: (pad d ++ (']' :: rest)))) =
        some (.items xs, rest) :=
      parseGo_renderItems xs (d + 2) d f rest hwf.2 hszxs hrest
    have hsk : skipWs ('\n' :: (pad (d + 2) ++ (renderJ x (d + 2) ++
        (renderItems xs (d + 2) ++ ('\n' :: (pad d ++ (']' :: rest))))))) =
        c :: (cs0 ++ (renderItems xs (d + 2) ++
          ('\n' :: (pad d ++ (']' :: rest))))) := by
      rw [skipWs_nl_pad, hcx, List.cons_append, skipWs_cons_not_ws hws]
    rw [parseGo_val_pre f _ hpre,
      show renderJ (.arr (.cons x xs)) d ++ rest =
        '[' :: ('\n' :: (pad (d + 2) ++ (renderJ x (d + 2) ++
          (renderItems xs (d + 2) ++
            ('\n' :: (pad d ++ (']' :: rest))))))) from by
        simp [renderJ, List.append_assoc],
      parseGo_val_arr_cons f hsk hbr h1 h2]
  | .obj .onil, d, fuel, pre, rest => fun _ hsz hrest hpre => by
    obtain ⟨f, rfl⟩ : ∃ f, fuel = f + 1 :=
      ⟨fuel - 1, by simp [jsize, jsizeO] at hsz; omega⟩
    rw [parseGo_val_pre f _ hpre,
      show renderJ (.obj .onil) d ++ rest = '{' :: ('}' :: rest) from rfl,
      parseGo_val_obj_nil f (skipWs_cons_not_ws (by decide) rest)]
  | .obj (.ocons k v tl), d, fuel, pre, rest => fun hwf hsz hrest hpre => by
    rw [jsonWF, Bool.and_eq_true] at hwf
    obtain ⟨hnd, hobj⟩ := hwf
    rw [objWF, Bool.and_eq_true] at hobj
    obtain ⟨f, rfl⟩ : ∃ f, fuel = f + 1 :=
      ⟨fuel - 1, by simp [jsize, jsizeO] at hsz; omega⟩
    have hszv : jsize v ≤ f := by simp [jsize, jsizeO] at hsz; omega
    have hsztl : jsizeO tl ≤ f := by simp [jsize, jsizeO] at hsz; omega
    have hv : parseGo f .val (' ' :: (renderJ v (d + 2) ++
        (renderFields tl (d + 2) ++ ('\n' :: (pad d ++ ('}' :: rest)))))) =
        some (.val v,
          renderFields tl (d + 2) ++ ('\n' :: (pad d ++ ('}' :: rest)))) :=
      parseGo_renderJ v (d + 2) f [' '] _ hobj.1 hszv
        (numDelim_fields tl (d + 2) _) allWs_space
    have htl : parseGo f .fields
        (renderFields tl (d + 2) ++ ('\n' :: (pad d ++ ('}' :: rest)))) =
        some (.fields tl, rest) :=
      parseGo_renderFields tl (d + 2) d f rest hobj.2 hsztl hrest
    have hsk : skipWs ('\n' :: (pad (d + 2) ++ ('"' :: (escapeStr k ++
        ('"' :: (':' :: (' ' :: (renderJ v (d + 2) ++
          (renderFields tl (d + 2) ++
            ('\n' :: (pad d ++ ('}' :: rest)))))))))))) =
        '"' :: (escapeStr k ++ ('"' :: (':' :: (' ' :: (renderJ v (d + 2) ++
          (renderFields tl (d + 2) ++
            ('\n' :: (pad d ++ ('}' :: rest))))))))) := by
      rw [skipWs_nl_pad, skipWs_cons_not_ws (by decide)]
    have hk : parseStrBody ((escapeStr k ++ ('"' :: (':' :: (' ' ::
        (renderJ v (d + 2) ++ (renderFields tl (d + 2) ++
          ('\n' :: (pad d ++ ('}' :: rest))))))))).length + 1)
        (escapeStr k ++ ('"' :: (':' :: (' ' :: (renderJ v (d + 2) ++
          (renderFields tl (d + 2) ++
            ('\n' :: (pad d ++ ('}' :: rest))))))))) =
        some (k, ':' :: (' ' :: (renderJ v (d + 2) ++
          (renderFields tl (d + 2) ++
            ('\n' :: (pad d ++ ('}' :: rest))))))) :=
      parseStrBody_escapeStr k _ _ (by simp [List.length_append])
    have hcol : skipWs (':' :: (' ' :: (renderJ v (d + 2) ++
        (renderFields tl (d + 2) ++ ('\n' :: (pad d ++ ('}' :: rest))))))) =
        ':' :: (' ' :: (renderJ v (d + 2) ++ (renderFields tl (d + 2) ++
          ('\n' :: (pad d ++ ('}' :: rest)))))) :=
      skipWs_cons_not_ws (by decide) _
    rw [parseGo_val_pre f _ hpre,
      show renderJ (.obj (.ocons k v tl)) d ++ rest =
        '{' :: ('\n' :: (pad (d + 2) ++ ('"' :: (escapeStr k ++
          ('"' :: (':' :: (' ' :: (renderJ v (d + 2) ++
            (renderFields tl (d + 2) ++
              ('\n' :: (pad d ++ ('}' :: rest)))))))))))) from by
        simp [renderJ, List.append_assoc],
      parseGo_val_obj_cons f hsk hk hcol hv htl, dedupGo_onil_id _ hnd]
theorem parseGo_renderItems : ∀ (xs : JList) (d d2 fuel : ℕ)
    (rest : List Char), listWF xs = true → jsizeL xs ≤ fuel →
    numDelim rest = true →
    parseGo fuel .items
      (renderItems xs d ++ ('\n' :: (pad d2 ++ (']' :: rest)))) =
      some (.items xs, rest)
  | .nil, d, d2, fuel, rest => fun _ hsz hrest => by
    obtain ⟨f, rfl⟩ : ∃ f, fuel = f + 1 :=
      ⟨fuel - 1, by simp [jsizeL] at hsz; omega⟩
    refine parseGo_items_close f ?_
    rw [show renderItems .nil d ++ ('\n' :: (pad d2 ++ (']' :: rest))) =
      '\n' :: (pad d2 ++ (']' :: rest)) from rfl, skipWs_nl_pad,
      skipWs_cons_not_ws (by decide)]
  | .cons x xs, d, d2, fuel, rest => fun hwf hsz hrest => by
    rw [listWF, Bool.and_eq_true] at hwf
    obtain ⟨f, rfl⟩ : ∃ f, fuel = f + 1 :=
      ⟨fuel - 1, by simp [jsizeL] at hsz; omega⟩
    have hszx : jsize x ≤ f := by simp [jsizeL] at hsz; omega
    have hszxs : jsizeL xs ≤ f := by simp [jsizeL] at hsz; omega
    have h1 : parseGo f .val ('\n' :: (pad d ++ (renderJ x d ++
        (renderItems xs d ++ ('\n' :: (pad d2 ++ (']' :: rest))))))) =
        some (.val x,
          renderItems xs d ++ ('\n' :: (pad d2 ++ (']' :: rest)))) :=
      parseGo_renderJ x d f ('\n' :: pad d) _ hwf.1 hszx
        (numDelim_items xs d _) (allWs_nl_pad d)
    have h2 : parseGo f .items
        (renderItems xs d ++ ('\n' :: (pad d2 ++ (']' :: rest)))) =
        some (.items xs, rest) :=
      parseGo_renderItems xs d d2 f rest hwf.2 hszxs hrest
    rw [show renderItems (.cons x xs) d ++ ('\n' :: (pad d2 ++ (']' :: rest))) =
      ',' :: ('\n' :: (pad d ++ (renderJ x d ++ (renderItems xs d ++
        ('\n' :: (pad d2 ++ (']' :: rest))))))) from by
      simp [renderItems, List.append_assoc]]
    exact parseGo_items_comma f (skipWs_cons_not_ws (by decide) _) h1 h2
theorem parseGo_renderFields : ∀ (xs : JObj) (d d2 fuel : ℕ)
    (rest : List Char), objWF xs = true → jsizeO xs ≤ fuel →
    numDelim rest = true →
    parseGo fuel .fields
      (renderFields xs d ++ ('\n' :: (pad d2 ++ ('}' :: rest)))) =
      some (.fields xs, rest)
  | .onil, d, d2, fuel, rest => fun _ hsz hrest => by
    obtain ⟨f, rfl⟩ : ∃ f, fuel = f + 1 :=
      ⟨fuel - 1, by simp [jsizeO] at hsz; omega⟩
    refine parseGo_fields_close f ?_
    rw [show renderFields .onil d ++ ('\n' :: (pad d2 ++ ('}' :: rest))) =
      '\n' :: (pad d2 ++ ('}' :: rest)) from rfl, skipWs_nl_pad,
      skipWs_cons_not_ws (by decide)]
  | .ocons k v tl, d, d2, fuel, rest => fun hwf hsz hrest => by
    rw [objWF, Bool.and_eq_true] at hwf
    obtain ⟨f, rfl⟩ : ∃ f, fuel = f + 1 :=
      ⟨fuel - 1, by simp [jsizeO] at hsz; omega⟩
    have hszv : jsize v ≤ f := by simp [jsizeO] at hsz; omega
    have hsztl : jsizeO tl ≤ f := by simp [jsizeO] at hsz; omega
    have hv : parseGo f .val (' ' :: (renderJ v d ++ (renderFields tl d ++
        ('\n' :: (pad d2 ++ ('}' :: rest)))))) =
        some (.val v,
          renderFields tl d ++ ('\n' :: (pad d2 ++ ('}' :: rest)))) :=
      parseGo_renderJ v d f [' '] _ hwf.1 hszv (numDelim_fields tl d _)
        allWs_space
    have htl : parseGo f .fields
        (renderFields tl d ++ ('\n' :: (pad d2 ++ ('}' :: rest)))) =
        some (.fields tl, rest) :=
      parseGo_renderFields tl d d2 f rest hwf.2 hsztl hrest
    have hk : parseStrBody ((escapeStr k ++ ('"' :: (':' :: (' ' ::
        (renderJ v d ++ (renderFields tl d ++
          ('\n' :: (pad d2 ++ ('}' :: rest))))))))).length + 1)
        (escapeStr k ++ ('"' :: (':' :: (' ' :: (renderJ v d ++
          (renderFields tl d ++ ('\n' :: (pad d2 ++ ('}' :: rest))))))))) =
        some (k, ':' :: (' ' :: (renderJ v d ++ (renderFields tl d ++
          ('\n' :: (pad d2 ++ ('}' :: rest))))))) :=
      parseStrBody_escapeStr k _ _ (by simp [List.length_append])
    have hq : skipWs ('\n' :: (pad d ++ ('"' :: (escapeStr k ++
        ('"' :: (':' :: (' ' :: (renderJ v d ++ (renderFields tl d ++
          ('\n' :: (pad d2 ++ ('}' :: rest)))))))))))) =
        '"' :: (escapeStr k ++ ('"' :: (':' :: (' ' :: (renderJ v d ++
          (renderFields tl d ++ ('\n' :: (pad d2 ++ ('}' :: rest))))))))) := by
      rw [skipWs_nl_pad, skipWs_cons_not_ws (by decide)]
    have hcol : skipWs (':' :: (' ' :: (renderJ v d ++ (renderFields tl d ++
        ('\n' :: (pad d2 ++ ('}' :: rest))))))) =
        ':' :: (' ' :: (renderJ v d ++ (renderFields tl d ++
          ('\n' :: (pad d2 ++ ('}' :: rest)))))) :=
      skipWs_cons_not_ws (by decide) _
    rw [show renderFields (.ocons k v tl) d ++
        ('\n' :: (pad d2 ++ ('}' :: rest))) =
      ',' :: ('\n' :: (pad d ++ ('"' :: (escapeStr k ++ ('"' :: (':' ::
        (' ' :: (renderJ v d ++ (renderFields tl d ++
          ('\n' :: (pad d2 ++ ('}' :: rest)))))))))))) from by
      simp [renderFields, List.append_assoc]]
    exact parseGo_fields_comma f (skipWs_cons_not_ws (by decide) _) hq hk
      hcol hv htl
end

theorem parseJson_renderJ (j : Json) (h : jsonWF j = true) :
    parseJson (renderJ j 0) = some j := by
  have hfuel : jsize j ≤ (renderJ j 0).length + 1 :=
    le_trans (jsize_le_render j 0) (Nat.le_succ _)
  have hmain := parseGo_renderJ j 0 ((renderJ j 0).length + 1) [] [] h hfuel
    rfl (fun c hc => absurd hc (List.not_mem_nil c))
  rw [List.nil_append, List.append_nil] at hmain
  rw [parseJson, hmain]
  rfl

/-- C7: for every representable ledger state `S` — a JSON document whose
objects, like the Python dicts `main.py` serializes, carry distinct keys —
loading the state file after `save_state` wrote it (temp file first, then
renamed over the state file) returns `S` unchanged:
`load_state (save_state fs S) = S`. -/
theorem load_save_roundtrip (fs : FSModel) (S : Json) (h : jsonWF S = true) :
    load_state (save_state fs S) = S := by
  show (parseJson (renderJ S 0)).getD default_state = S
  rw [parseJson_renderJ S h]
  rfl

/-- Witness: the round trip at the engine's default state document. -/
theorem load_save_roundtrip_witness :
    jsonWF default_state = true ∧
    load_state (save_state ⟨none, none⟩ default_state) = default_state :=
  ⟨by decide, load_save_roundtrip ⟨none, none⟩ default_state (by decide)⟩

end AoAlgo
